import Mathlib

/-!
# CAN nominal bit timing search (`can_bit_timing_calc.js`)

A shallow embedding of `find_best_can_timing_solution` and the properties of
its search and ranking.

Numbers.  A JavaScript number is modelled exactly: a finite value is a rational
(no floating-point rounding), and `Infinity`, `-Infinity` and `NaN` are kept as
separate values, so that a division by zero behaves as it does in JavaScript
rather than as the field convention `x / 0 = 0`.  The sign of a zero is not
modelled: the inputs are integers and rationals, so a zero among them is `+0`,
and in the function below a zero divisor of the other sign can only arise when
`timeQuanta` is `0` or `-0`; in that case `baudError` is `Infinity` or `NaN`
whatever the sign, every comparison of lines 75-78 is false and the iteration
leaves `result` untouched, which is also what the model computes.

Integer-valued quantities (the capability fields, `prescaler`, `timeQuanta`
once it has passed the window test, `propSeg`, the phase segments, `maxSJW`)
are integers.
-/

namespace CanBitTiming

/-- JavaScript number: an exact finite value, or one of the non-finite values. -/
inductive JSNum where
  | fin (q : ℚ)
  | pinf
  | ninf
  | nan
  deriving DecidableEq

namespace JSNum

/-- Integer seen as a JavaScript number. -/
def ofInt (i : Int) : JSNum := fin (i : ℚ)

/-- JavaScript `a / b`. -/
def div : JSNum → JSNum → JSNum
  | nan, _ => nan
  | fin _, nan => nan
  | pinf, nan => nan
  | ninf, nan => nan
  | fin x, fin y =>
    if y = 0 then (if 0 < x then pinf else if x < 0 then ninf else nan) else fin (x / y)
  | fin _, pinf => fin 0
  | fin _, ninf => fin 0
  | pinf, fin y => if y < 0 then ninf else pinf
  | ninf, fin y => if y < 0 then pinf else ninf
  | pinf, pinf => nan
  | pinf, ninf => nan
  | ninf, pinf => nan
  | ninf, ninf => nan

/-- JavaScript `a * b`. -/
def mul : JSNum → JSNum → JSNum
  | nan, _ => nan
  | fin _, nan => nan
  | pinf, nan => nan
  | ninf, nan => nan
  | fin x, fin y => fin (x * y)
  | fin x, pinf => if 0 < x then pinf else if x < 0 then ninf else nan
  | fin x, ninf => if 0 < x then ninf else if x < 0 then pinf else nan
  | pinf, fin y => if 0 < y then pinf else if y < 0 then ninf else nan
  | ninf, fin y => if 0 < y then ninf else if y < 0 then pinf else nan
  | pinf, pinf => pinf
  | pinf, ninf => ninf
  | ninf, pinf => ninf
  | ninf, ninf => pinf

/-- JavaScript `a - b`. -/
def sub : JSNum → JSNum → JSNum
  | nan, _ => nan
  | fin _, nan => nan
  | pinf, nan => nan
  | ninf, nan => nan
  | fin x, fin y => fin (x - y)
  | fin _, pinf => ninf
  | fin _, ninf => pinf
  | pinf, fin _ => pinf
  | ninf, fin _ => ninf
  | pinf, pinf => nan
  | pinf, ninf => pinf
  | ninf, pinf => ninf
  | ninf, ninf => nan

/-- JavaScript `Math.abs`. -/
def abs : JSNum → JSNum
  | fin x => fin |x|
  | pinf => pinf
  | ninf => pinf
  | nan => nan

/-- JavaScript `a < b`; false as soon as one side is `NaN`. -/
def lt : JSNum → JSNum → Bool
  | fin x, fin y => decide (x < y)
  | fin _, pinf => true
  | ninf, fin _ => true
  | ninf, pinf => true
  | _, _ => false

/-- JavaScript `a <= b`; false as soon as one side is `NaN`. -/
def le : JSNum → JSNum → Bool
  | fin x, fin y => decide (x ≤ y)
  | fin _, pinf => true
  | ninf, fin _ => true
  | ninf, pinf => true
  | pinf, pinf => true
  | ninf, ninf => true
  | _, _ => false

/-- JavaScript `Math.min` of two numbers; `NaN` as soon as one argument is. -/
def min : JSNum → JSNum → JSNum
  | nan, _ => nan
  | fin _, nan => nan
  | pinf, nan => nan
  | ninf, nan => nan
  | a, b => if lt b a then b else a

/-- JavaScript `Math.round`, which rounds halves up: `floor (x + 1/2)` on a
finite value.  On `NaN` and the infinities `Math.round` returns its argument;
`none` stands for those three non-finite results. -/
def round : JSNum → Option Int
  | fin x => some ⌊x + 1 / 2⌋
  | _ => none

/-- A finite value. -/
def isFinite : JSNum → Bool
  | fin _ => true
  | _ => false

end JSNum

open JSNum

/-- The constant `SYNC_SEG` (line 15). -/
def SYNC_SEG : Int := 1

/-- The constant `Number.MAX_VALUE`, the largest finite double:
`(2 ^ 53 - 1) * 2 ^ 971`. -/
def MAX_VALUE : ℚ := ((2 ^ 1024 - 2 ^ 971 : Nat) : ℚ)

/-- The fields of `deviceCapability` that the function reads.  (The example also
sets `minSJW`, which the function never reads.) -/
structure DeviceCapability where
  clock : Int
  minPS : Int
  maxPS : Int
  minTQ : Int
  maxTQ : Int
  minPropSeg : Int
  maxPropSeg : Int
  minTSeg1 : Int
  maxTSeg1 : Int
  minTSeg2 : Int
  maxTSeg2 : Int
  maxSJW : Int
  deriving DecidableEq

/-- The record `result`.  The object literal of line 26 has no `pseg1` and no
`pseg2` property; they are `undefined` (`none`) until lines 88-89 set them. -/
structure Result where
  solutionFound : Bool
  baudRate : JSNum
  baudError : JSNum
  samplePoint : JSNum
  samplePointError : JSNum
  oscillatorTolerance : JSNum
  prescaler : Int
  propSeg : Int
  pseg1 : Option Int
  pseg2 : Option Int
  maxSJW : Int
  deriving DecidableEq

/-- The initial `result` of line 26. -/
def initialResult : Result :=
  { solutionFound := false, baudRate := fin 0, baudError := fin MAX_VALUE, samplePoint := fin 0,
    samplePointError := fin 100, oscillatorTolerance := fin 0, prescaler := 0, propSeg := 0,
    pseg1 := none, pseg2 := none, maxSJW := 0 }

/-- The local variables of one inner-loop iteration that reaches line 74. -/
structure Candidate where
  baudRate : JSNum
  baudError : JSNum
  samplePoint : JSNum
  samplePointError : JSNum
  oscillatorTolerance : JSNum
  prescaler : Int
  propSeg : Int
  phaseSeg1 : Int
  phaseSeg2 : Int
  maxSJW : Int
  deriving DecidableEq

/-- Line 28: the lower end of the total-TQ window. -/
def windowMinTQ (cap : DeviceCapability) : Int :=
  max (SYNC_SEG + cap.minTSeg1 + cap.minTSeg2) cap.minTQ

/-- Line 29: the upper end of the total-TQ window. -/
def windowMaxTQ (cap : DeviceCapability) : Int :=
  min (SYNC_SEG + cap.maxTSeg1 + cap.maxTSeg2) cap.maxTQ

/-- Line 33: `Math.round((clock / prescaler) / desiredBaud)`. -/
def timeQuantaOf (cap : DeviceCapability) (desiredBaud : ℚ) (prescaler : Int) : Option Int :=
  JSNum.round (JSNum.div (JSNum.div (ofInt cap.clock) (ofInt prescaler)) (fin desiredBaud))

/-- Line 36: `clock / (prescaler * timeQuanta)`. -/
def calculatedBaudOf (cap : DeviceCapability) (prescaler timeQuanta : Int) : JSNum :=
  JSNum.div (ofInt cap.clock) (ofInt (prescaler * timeQuanta))

/-- Line 37: `Math.abs(calculatedBaud - desiredBaud)`. -/
def baudErrorOf (cap : DeviceCapability) (desiredBaud : ℚ) (prescaler timeQuanta : Int) : JSNum :=
  JSNum.abs (JSNum.sub (calculatedBaudOf cap prescaler timeQuanta) (fin desiredBaud))

/-- Line 38: the local `maxPropSeg`, the cap of the inner loop. -/
def maxPropSegAt (cap : DeviceCapability) (timeQuanta : Int) : Int :=
  min cap.maxPropSeg (timeQuanta - (SYNC_SEG + (cap.minTSeg1 - cap.minPropSeg) + cap.minTSeg2))

/-- Lines 43-52: `(phaseSeg1, phaseSeg2)` from `remainingTimeQuanta`.  The test
uses JavaScript `%`, whose result has the sign of the dividend (`Int.tmod`);
the even branch divides exactly, the odd branch takes `Math.floor`. -/
def splitPhase (remainingTimeQuanta : Int) : Int × Int :=
  if remainingTimeQuanta.tmod 2 = 0 then
    (remainingTimeQuanta / 2, remainingTimeQuanta / 2)
  else
    (Int.fdiv remainingTimeQuanta 2, Int.fdiv remainingTimeQuanta 2 + 1)

/-- Lines 41-52: `phaseSeg1` at `timeQuanta` and `propSeg`. -/
def phaseSeg1Of (timeQuanta propSeg : Int) : Int :=
  (splitPhase (timeQuanta - (SYNC_SEG + propSeg))).1

/-- Lines 41-52: `phaseSeg2` at `timeQuanta` and `propSeg`. -/
def phaseSeg2Of (timeQuanta propSeg : Int) : Int :=
  (splitPhase (timeQuanta - (SYNC_SEG + propSeg))).2

/-- Line 62: `Math.min(phaseSeg1, phaseSeg2, deviceCapability.maxSJW)`. -/
def maxSJWOf (cap : DeviceCapability) (timeQuanta propSeg : Int) : Int :=
  Min.min (Min.min (phaseSeg1Of timeQuanta propSeg) (phaseSeg2Of timeQuanta propSeg)) cap.maxSJW

/-- Line 64: `df1`. -/
def df1Of (timeQuanta propSeg : Int) : JSNum :=
  JSNum.div (ofInt (Min.min (phaseSeg1Of timeQuanta propSeg) (phaseSeg2Of timeQuanta propSeg)))
    (ofInt (2 * ((13 * timeQuanta) - phaseSeg2Of timeQuanta propSeg)))

/-- Line 65: `df2`. -/
def df2Of (cap : DeviceCapability) (timeQuanta propSeg : Int) : JSNum :=
  JSNum.div (ofInt (maxSJWOf cap timeQuanta propSeg)) (ofInt (20 * timeQuanta))

/-- Line 66: `oscillatorTolerance`. -/
def oscillatorToleranceOf (cap : DeviceCapability) (timeQuanta propSeg : Int) : JSNum :=
  JSNum.min (df1Of timeQuanta propSeg) (df2Of cap timeQuanta propSeg)

/-- Line 72: `calculatedSamplePoint`. -/
def samplePointOf (timeQuanta propSeg : Int) : JSNum :=
  JSNum.mul
    (JSNum.div (ofInt (SYNC_SEG + propSeg + phaseSeg1Of timeQuanta propSeg)) (ofInt timeQuanta))
    (fin 100)

/-- Line 73: `samplePointError`. -/
def samplePointErrorOf (desiredSamplePoint : ℚ) (timeQuanta propSeg : Int) : JSNum :=
  JSNum.abs (JSNum.sub (fin desiredSamplePoint) (samplePointOf timeQuanta propSeg))

/-- Lines 41-73: the body of the inner loop up to the comparison; `none` is a
`continue`. -/
def candidate (cap : DeviceCapability) (desiredBaud desiredSamplePoint : ℚ)
    (prescaler timeQuanta propSeg : Int) : Option Candidate :=
  let phaseSeg1 := phaseSeg1Of timeQuanta propSeg
  let phaseSeg2 := phaseSeg2Of timeQuanta propSeg
  if propSeg + phaseSeg1 > cap.maxTSeg1 ∨ propSeg + phaseSeg1 < cap.minTSeg1 then none
  else if phaseSeg2 > cap.maxTSeg2 ∨ phaseSeg2 < cap.minTSeg2 then none
  else if JSNum.lt (oscillatorToleranceOf cap timeQuanta propSeg) (fin 0) then none
  else
    some
      { baudRate := calculatedBaudOf cap prescaler timeQuanta,
        baudError := baudErrorOf cap desiredBaud prescaler timeQuanta,
        samplePoint := samplePointOf timeQuanta propSeg,
        samplePointError := samplePointErrorOf desiredSamplePoint timeQuanta propSeg,
        oscillatorTolerance := oscillatorToleranceOf cap timeQuanta propSeg,
        prescaler := prescaler, propSeg := propSeg,
        phaseSeg1 := phaseSeg1, phaseSeg2 := phaseSeg2,
        maxSJW := maxSJWOf cap timeQuanta propSeg }

/-- Lines 75-78: the replacement condition. -/
def replaces (result : Result) (c : Candidate) : Bool :=
  JSNum.lt c.baudError result.baudError ||
  (JSNum.le c.baudError result.baudError &&
    JSNum.lt c.samplePointError result.samplePointError) ||
  (JSNum.le c.baudError result.baudError &&
    JSNum.le c.samplePointError result.samplePointError &&
    JSNum.lt result.oscillatorTolerance c.oscillatorTolerance) ||
  (JSNum.le c.baudError result.baudError &&
    JSNum.le c.samplePointError result.samplePointError &&
    JSNum.le result.oscillatorTolerance c.oscillatorTolerance &&
    (result.prescaler != c.prescaler))

/-- Lines 80-90: every property of `result` is overwritten. -/
def record (c : Candidate) : Result :=
  { solutionFound := true, baudRate := c.baudRate, baudError := c.baudError,
    samplePoint := c.samplePoint, samplePointError := c.samplePointError,
    oscillatorTolerance := c.oscillatorTolerance, prescaler := c.prescaler,
    propSeg := c.propSeg, pseg1 := some c.phaseSeg1, pseg2 := some c.phaseSeg2,
    maxSJW := c.maxSJW }

/-- Lines 74-91: compare one candidate with the recorded best. -/
def update (result : Result) (c : Candidate) : Result :=
  if replaces result c then record c else result

/-- The values of an ascending loop `for (i = lo; i <= hi; i++)`. -/
def upTo (lo hi : Int) : List Int :=
  (List.range (hi - lo + 1).toNat).map (fun (i : Nat) => lo + (i : Int))

/-- The values of a descending loop `for (i = hi; i >= lo; i--)`. -/
def downFrom (hi lo : Int) : List Int :=
  (List.range (hi - lo + 1).toNat).map (fun (i : Nat) => hi - (i : Int))

/-- Lines 41-91: one iteration of the inner loop. -/
def propSegStep (cap : DeviceCapability) (desiredBaud desiredSamplePoint : ℚ)
    (prescaler timeQuanta : Int) (result : Result) (propSeg : Int) : Result :=
  match candidate cap desiredBaud desiredSamplePoint prescaler timeQuanta propSeg with
  | none => result
  | some c => update result c

/-- Lines 32-93: one iteration of the outer loop.  A non-finite `timeQuanta`
fails the window test of line 34. -/
def prescalerStep (cap : DeviceCapability) (desiredBaud desiredSamplePoint : ℚ)
    (result : Result) (prescaler : Int) : Result :=
  match timeQuantaOf cap desiredBaud prescaler with
  | none => result
  | some timeQuanta =>
    if timeQuanta ≥ windowMinTQ cap ∧ timeQuanta ≤ windowMaxTQ cap then
      (upTo cap.minPropSeg (maxPropSegAt cap timeQuanta)).foldl
        (propSegStep cap desiredBaud desiredSamplePoint prescaler timeQuanta) result
    else result

/-- Lines 25-96. -/
def find_best_can_timing_solution (cap : DeviceCapability)
    (desiredBaud desiredSamplePoint : ℚ) : Result :=
  (downFrom cap.maxPS cap.minPS).foldl
    (prescalerStep cap desiredBaud desiredSamplePoint) initialResult

/-- The capability of the example (lines 99-112); `maxPropSeg` is
`385 - (1 + (1 + 1)) = 382`. -/
def exampleCapability : DeviceCapability :=
  { clock := 80000000, minPS := 1, maxPS := 512, minTQ := 4, maxTQ := 385, minPropSeg := 1,
    maxPropSeg := 385 - (SYNC_SEG + (1 + 1)), minTSeg1 := 2, maxTSeg1 := 256, minTSeg2 := 1,
    maxTSeg2 := 128, maxSJW := 128 }

/-! ## The candidates in the order the loops visit them -/

/-- The candidates that reach line 74 during the outer-loop iteration at
`prescaler`, in the order of the inner loop. -/
def candidatesAt (cap : DeviceCapability) (desiredBaud desiredSamplePoint : ℚ)
    (prescaler : Int) : List Candidate :=
  match timeQuantaOf cap desiredBaud prescaler with
  | none => []
  | some timeQuanta =>
    if timeQuanta ≥ windowMinTQ cap ∧ timeQuanta ≤ windowMaxTQ cap then
      (upTo cap.minPropSeg (maxPropSegAt cap timeQuanta)).filterMap
        (candidate cap desiredBaud desiredSamplePoint prescaler timeQuanta)
    else []

/-- All candidates that reach line 74, in the order the two loops visit them. -/
def allCandidates (cap : DeviceCapability) (desiredBaud desiredSamplePoint : ℚ) :
    List Candidate :=
  (downFrom cap.maxPS cap.minPS).flatMap (candidatesAt cap desiredBaud desiredSamplePoint)

/-- The pair `(prescaler, propSeg)` is visited by the two loops, with
`timeQuanta` the value of line 33: `prescaler` is in `[minPS, maxPS]`,
`timeQuanta` passes the window test of line 34 and `propSeg` is within the
bounds of the inner loop. -/
def Enumerated (cap : DeviceCapability) (desiredBaud : ℚ)
    (prescaler timeQuanta propSeg : Int) : Prop :=
  cap.minPS ≤ prescaler ∧ prescaler ≤ cap.maxPS ∧
  timeQuantaOf cap desiredBaud prescaler = some timeQuanta ∧
  windowMinTQ cap ≤ timeQuanta ∧ timeQuanta ≤ windowMaxTQ cap ∧
  cap.minPropSeg ≤ propSeg ∧ propSeg ≤ maxPropSegAt cap timeQuanta

instance (cap : DeviceCapability) (desiredBaud : ℚ) (prescaler timeQuanta propSeg : Int) :
    Decidable (Enumerated cap desiredBaud prescaler timeQuanta propSeg) := by
  unfold Enumerated; infer_instance

/-- The inputs the contract calls well-formed: `clock >= 1`, `minPS >= 1`, every
`min*` bound non-negative, `desiredBaud > 0`, and `clock` and `desiredBaud`
below `Number.MAX_VALUE`. -/
def WellFormed (cap : DeviceCapability) (desiredBaud : ℚ) : Prop :=
  1 ≤ cap.clock ∧ 1 ≤ cap.minPS ∧ 0 ≤ cap.minTQ ∧ 0 ≤ cap.minPropSeg ∧
  0 ≤ cap.minTSeg1 ∧ 0 ≤ cap.minTSeg2 ∧ 0 < desiredBaud ∧
  (cap.clock : ℚ) < MAX_VALUE ∧ desiredBaud < MAX_VALUE

instance (cap : DeviceCapability) (desiredBaud : ℚ) : Decidable (WellFormed cap desiredBaud) := by
  unfold WellFormed; infer_instance

/-! ## The loops -/

theorem mem_upTo (lo hi x : Int) : x ∈ upTo lo hi ↔ lo ≤ x ∧ x ≤ hi := by
  unfold upTo
  simp only [List.mem_map, List.mem_range]
  constructor
  · rintro ⟨i, hi', rfl⟩
    omega
  · rintro ⟨h1, h2⟩
    exact ⟨(x - lo).toNat, by omega, by omega⟩

theorem mem_downFrom (hi lo x : Int) : x ∈ downFrom hi lo ↔ lo ≤ x ∧ x ≤ hi := by
  unfold downFrom
  simp only [List.mem_map, List.mem_range]
  constructor
  · rintro ⟨i, hi', rfl⟩
    omega
  · rintro ⟨h1, h2⟩
    exact ⟨(hi - x).toNat, by omega, by omega⟩

theorem pairwise_upTo (lo hi : Int) : (upTo lo hi).Pairwise (fun a b => a < b) := by
  unfold upTo
  rw [List.pairwise_map]
  exact (List.pairwise_lt_range _).imp (fun h => by omega)

theorem pairwise_downFrom (hi lo : Int) : (downFrom hi lo).Pairwise (fun a b => b < a) := by
  unfold downFrom
  rw [List.pairwise_map]
  exact (List.pairwise_lt_range _).imp (fun h => by omega)

theorem foldl_propSegStep (cap : DeviceCapability) (desiredBaud desiredSamplePoint : ℚ)
    (prescaler timeQuanta : Int) (l : List Int) (result : Result) :
    l.foldl (propSegStep cap desiredBaud desiredSamplePoint prescaler timeQuanta) result =
      (l.filterMap (candidate cap desiredBaud desiredSamplePoint prescaler timeQuanta)).foldl
        update result := by
  induction l generalizing result with
  | nil => rfl
  | cons a l ih =>
    rw [List.foldl_cons, ih, List.filterMap_cons]
    unfold propSegStep
    cases candidate cap desiredBaud desiredSamplePoint prescaler timeQuanta a <;> rfl

theorem prescalerStep_eq (cap : DeviceCapability) (desiredBaud desiredSamplePoint : ℚ)
    (result : Result) (prescaler : Int) :
    prescalerStep cap desiredBaud desiredSamplePoint result prescaler =
      (candidatesAt cap desiredBaud desiredSamplePoint prescaler).foldl update result := by
  unfold prescalerStep candidatesAt
  cases timeQuantaOf cap desiredBaud prescaler with
  | none => rfl
  | some timeQuanta =>
    dsimp only
    split
    · exact foldl_propSegStep _ _ _ _ _ _ _
    · rfl

theorem foldl_prescalerStep (cap : DeviceCapability) (desiredBaud desiredSamplePoint : ℚ)
    (l : List Int) (result : Result) :
    l.foldl (prescalerStep cap desiredBaud desiredSamplePoint) result =
      (l.flatMap (candidatesAt cap desiredBaud desiredSamplePoint)).foldl update result := by
  induction l generalizing result with
  | nil => rfl
  | cons a l ih =>
    rw [List.foldl_cons, ih, List.flatMap_cons, List.foldl_append, prescalerStep_eq]

/-- The function is the fold of the comparison of lines 74-91 over the
candidates, in loop order. -/
theorem find_best_eq_foldl (cap : DeviceCapability) (desiredBaud desiredSamplePoint : ℚ) :
    find_best_can_timing_solution cap desiredBaud desiredSamplePoint =
      (allCandidates cap desiredBaud desiredSamplePoint).foldl update initialResult :=
  foldl_prescalerStep _ _ _ _ _

theorem mem_candidatesAt (cap : DeviceCapability) (desiredBaud desiredSamplePoint : ℚ)
    (prescaler : Int) (c : Candidate) :
    c ∈ candidatesAt cap desiredBaud desiredSamplePoint prescaler ↔
      ∃ timeQuanta propSeg, timeQuantaOf cap desiredBaud prescaler = some timeQuanta ∧
        windowMinTQ cap ≤ timeQuanta ∧ timeQuanta ≤ windowMaxTQ cap ∧
        cap.minPropSeg ≤ propSeg ∧ propSeg ≤ maxPropSegAt cap timeQuanta ∧
        candidate cap desiredBaud desiredSamplePoint prescaler timeQuanta propSeg = some c := by
  unfold candidatesAt
  cases h : timeQuantaOf cap desiredBaud prescaler with
  | none => simp
  | some timeQuanta =>
    dsimp only
    split
    · rename_i hw
      simp only [List.mem_filterMap, mem_upTo, Option.some.injEq]
      constructor
      · rintro ⟨propSeg, ⟨h1, h2⟩, hc⟩
        exact ⟨timeQuanta, propSeg, rfl, hw.1, hw.2, h1, h2, hc⟩
      · rintro ⟨tq, propSeg, rfl, -, -, h1, h2, hc⟩
        exact ⟨propSeg, ⟨h1, h2⟩, hc⟩
    · rename_i hw
      simp only [List.not_mem_nil, Option.some.injEq, false_iff, not_exists, not_and]
      rintro tq propSeg rfl h1 h2
      exact absurd ⟨h1, h2⟩ hw

/-- A candidate reaches line 74 exactly when it is computed at an enumerated
pair that passes every check. -/
theorem mem_allCandidates (cap : DeviceCapability) (desiredBaud desiredSamplePoint : ℚ)
    (c : Candidate) :
    c ∈ allCandidates cap desiredBaud desiredSamplePoint ↔
      ∃ prescaler timeQuanta propSeg, Enumerated cap desiredBaud prescaler timeQuanta propSeg ∧
        candidate cap desiredBaud desiredSamplePoint prescaler timeQuanta propSeg = some c := by
  unfold allCandidates Enumerated
  simp only [List.mem_flatMap, mem_downFrom, mem_candidatesAt]
  constructor
  · rintro ⟨p, ⟨h1, h2⟩, tq, ps, h3, h4, h5, h6, h7, h8⟩
    exact ⟨p, tq, ps, ⟨h1, h2, h3, h4, h5, h6, h7⟩, h8⟩
  · rintro ⟨p, tq, ps, ⟨h1, h2, h3, h4, h5, h6, h7⟩, h8⟩
    exact ⟨p, ⟨h1, h2⟩, tq, ps, h3, h4, h5, h6, h7, h8⟩

/-! ## The split of the remaining time quanta -/

theorem tmod_two_eq_zero_iff (r : Int) : r.tmod 2 = 0 ↔ r % 2 = 0 :=
  ⟨fun h => Int.emod_eq_zero_of_dvd (Int.dvd_of_tmod_eq_zero h),
   fun h => Int.tmod_eq_zero_of_dvd (Int.dvd_of_emod_eq_zero h)⟩

/-- Whatever the sign and parity of `r`, the split gives `floor (r / 2)` and
the rest. -/
theorem splitPhase_eq (r : Int) : splitPhase r = (r / 2, r - r / 2) := by
  unfold splitPhase
  rw [Int.fdiv_eq_ediv r (by decide : (0 : Int) ≤ 2)]
  by_cases h : r.tmod 2 = 0
  · rw [if_pos h]
    have := (tmod_two_eq_zero_iff r).1 h
    exact Prod.ext rfl (by dsimp only; omega)
  · rw [if_neg h]
    have := mt (tmod_two_eq_zero_iff r).2 h
    exact Prod.ext rfl (by dsimp only; omega)

theorem phaseSeg1Of_eq (timeQuanta propSeg : Int) :
    phaseSeg1Of timeQuanta propSeg = (timeQuanta - (1 + propSeg)) / 2 := by
  unfold phaseSeg1Of SYNC_SEG
  rw [splitPhase_eq]

theorem phaseSeg2Of_eq (timeQuanta propSeg : Int) :
    phaseSeg2Of timeQuanta propSeg =
      (timeQuanta - (1 + propSeg)) - (timeQuanta - (1 + propSeg)) / 2 := by
  unfold phaseSeg2Of SYNC_SEG
  rw [splitPhase_eq]

theorem segments_sum (timeQuanta propSeg : Int) :
    SYNC_SEG + propSeg + phaseSeg1Of timeQuanta propSeg + phaseSeg2Of timeQuanta propSeg =
      timeQuanta := by
  rw [phaseSeg1Of_eq, phaseSeg2Of_eq]
  unfold SYNC_SEG
  omega

/-! ## What a candidate holds -/

/-- A pair reaches line 74 exactly when it passes the three checks, and the
candidate then holds the values of the local variables. -/
theorem candidate_eq_some (cap : DeviceCapability) (desiredBaud desiredSamplePoint : ℚ)
    (prescaler timeQuanta propSeg : Int) (c : Candidate) :
    candidate cap desiredBaud desiredSamplePoint prescaler timeQuanta propSeg = some c ↔
      (cap.minTSeg1 ≤ propSeg + phaseSeg1Of timeQuanta propSeg ∧
        propSeg + phaseSeg1Of timeQuanta propSeg ≤ cap.maxTSeg1 ∧
        cap.minTSeg2 ≤ phaseSeg2Of timeQuanta propSeg ∧
        phaseSeg2Of timeQuanta propSeg ≤ cap.maxTSeg2 ∧
        JSNum.lt (oscillatorToleranceOf cap timeQuanta propSeg) (fin 0) = false) ∧
      c = { baudRate := calculatedBaudOf cap prescaler timeQuanta,
            baudError := baudErrorOf cap desiredBaud prescaler timeQuanta,
            samplePoint := samplePointOf timeQuanta propSeg,
            samplePointError := samplePointErrorOf desiredSamplePoint timeQuanta propSeg,
            oscillatorTolerance := oscillatorToleranceOf cap timeQuanta propSeg,
            prescaler := prescaler, propSeg := propSeg,
            phaseSeg1 := phaseSeg1Of timeQuanta propSeg,
            phaseSeg2 := phaseSeg2Of timeQuanta propSeg,
            maxSJW := maxSJWOf cap timeQuanta propSeg } := by
  unfold candidate
  dsimp only
  split
  · simp only [false_iff, not_and, reduceCtorEq]
    intro h
    omega
  · split
    · simp only [false_iff, not_and, reduceCtorEq]
      intro h
      omega
    · split
      · rename_i h
        simp [h]
      · rename_i h1 h2 h3
        simp only [Option.some.injEq, Bool.not_eq_true] at h3 ⊢
        constructor
        · intro h
          exact ⟨⟨by omega, by omega, by omega, by omega, h3⟩, h.symm⟩
        · intro h
          exact h.2.symm

/-! ## The recorded best is one of the candidates -/

theorem update_cases (r : Result) (c : Candidate) : update r c = r ∨ update r c = record c := by
  unfold update
  split
  · exact Or.inr rfl
  · exact Or.inl rfl

theorem foldl_update_cases (l : List Candidate) (r : Result) :
    l.foldl update r = r ∨ ∃ c ∈ l, l.foldl update r = record c := by
  induction l using List.reverseRecOn with
  | nil => exact Or.inl rfl
  | append_singleton l a ih =>
    rw [List.foldl_append, List.foldl_cons, List.foldl_nil]
    rcases update_cases (l.foldl update r) a with h | h
    · rw [h]
      rcases ih with ih | ⟨c, hc, ih⟩
      · exact Or.inl ih
      · exact Or.inr ⟨c, List.mem_append_left _ hc, ih⟩
    · exact Or.inr ⟨a, by simp, h⟩

/-- The returned record is the untouched initial one, or the record of a
candidate that reached line 74. -/
theorem find_best_cases (cap : DeviceCapability) (desiredBaud desiredSamplePoint : ℚ) :
    find_best_can_timing_solution cap desiredBaud desiredSamplePoint = initialResult ∨
      ∃ c ∈ allCandidates cap desiredBaud desiredSamplePoint,
        find_best_can_timing_solution cap desiredBaud desiredSamplePoint = record c := by
  rw [find_best_eq_foldl]
  exact foldl_update_cases _ _

theorem find_best_of_found (cap : DeviceCapability) (desiredBaud desiredSamplePoint : ℚ)
    (h : (find_best_can_timing_solution cap desiredBaud desiredSamplePoint).solutionFound = true) :
    ∃ c ∈ allCandidates cap desiredBaud desiredSamplePoint,
      find_best_can_timing_solution cap desiredBaud desiredSamplePoint = record c := by
  rcases find_best_cases cap desiredBaud desiredSamplePoint with h0 | h1
  · rw [h0] at h
    exact absurd h (by decide)
  · exact h1

theorem find_best_of_not_found (cap : DeviceCapability) (desiredBaud desiredSamplePoint : ℚ)
    (h : (find_best_can_timing_solution cap desiredBaud desiredSamplePoint).solutionFound = false) :
    find_best_can_timing_solution cap desiredBaud desiredSamplePoint = initialResult := by
  rcases find_best_cases cap desiredBaud desiredSamplePoint with h0 | ⟨c, -, h1⟩
  · exact h0
  · rw [h1] at h
    exact absurd h (by simp [record])

/-! ## Ranking -/

/-- The value of a finite number (and `0` on the three non-finite ones); it is
used only where the number is known to be finite. -/
def JSNum.toRat : JSNum → ℚ
  | fin q => q
  | _ => 0

/-- The three ranking fields of the candidate are finite and its baud error is
below the initial `Number.MAX_VALUE`. -/
def Candidate.Ranked (c : Candidate) : Prop :=
  c.baudError = fin c.baudError.toRat ∧ c.baudError.toRat < MAX_VALUE ∧
  c.samplePointError = fin c.samplePointError.toRat ∧
  c.oscillatorTolerance = fin c.oscillatorTolerance.toRat

/-- The rank of a candidate in the preference order of line 74: baud error,
then sample point error, then oscillator tolerance (larger is better). -/
def Candidate.key (c : Candidate) : ℚ ×ₗ ℚ ×ₗ ℚᵒᵈ :=
  toLex (c.baudError.toRat,
    toLex (c.samplePointError.toRat, OrderDual.toDual c.oscillatorTolerance.toRat))

/-- The order in which the loops visit two candidates: a larger prescaler
first, and within one prescaler the smaller `propSeg` first. -/
def LoopOrder (a b : Candidate) : Prop :=
  b.prescaler < a.prescaler ∨ (b.prescaler = a.prescaler ∧ a.propSeg < b.propSeg)

theorem key_lt_iff (c d : Candidate) :
    c.key < d.key ↔
      c.baudError.toRat < d.baudError.toRat ∨
      (c.baudError.toRat = d.baudError.toRat ∧
        c.samplePointError.toRat < d.samplePointError.toRat) ∨
      (c.baudError.toRat = d.baudError.toRat ∧
        c.samplePointError.toRat = d.samplePointError.toRat ∧
        d.oscillatorTolerance.toRat < c.oscillatorTolerance.toRat) := by
  unfold Candidate.key
  simp only [Prod.Lex.lt_iff, ofLex_toLex, OrderDual.toDual_lt_toDual]
  tauto

theorem key_le_iff (c d : Candidate) :
    c.key ≤ d.key ↔
      c.baudError.toRat ≤ d.baudError.toRat ∧
      (c.baudError.toRat = d.baudError.toRat →
        c.samplePointError.toRat ≤ d.samplePointError.toRat ∧
        (c.samplePointError.toRat = d.samplePointError.toRat →
          d.oscillatorTolerance.toRat ≤ c.oscillatorTolerance.toRat)) := by
  unfold Candidate.key
  simp only [Prod.Lex.le_iff, ofLex_toLex, OrderDual.toDual_le_toDual]
  constructor
  · rintro (h | ⟨h1, h2 | ⟨h2, h3⟩⟩)
    · exact ⟨h.le, fun e => absurd e h.ne⟩
    · exact ⟨h1.le, fun _ => ⟨h2.le, fun e => absurd e h2.ne⟩⟩
    · exact ⟨h1.le, fun _ => ⟨h2.le, fun _ => h3⟩⟩
  · rintro ⟨h1, h2⟩
    rcases h1.lt_or_eq with h | h
    · exact Or.inl h
    · obtain ⟨h3, h4⟩ := h2 h
      rcases h3.lt_or_eq with h' | h'
      · exact Or.inr ⟨h, Or.inl h'⟩
      · exact Or.inr ⟨h, Or.inr ⟨h', h4 h'⟩⟩

theorem key_eq_iff (c d : Candidate) :
    c.key = d.key ↔
      c.baudError.toRat = d.baudError.toRat ∧
      c.samplePointError.toRat = d.samplePointError.toRat ∧
      c.oscillatorTolerance.toRat = d.oscillatorTolerance.toRat := by
  unfold Candidate.key
  simp [Prod.ext_iff]

/-- Lines 75-78 on rationals: the four clauses hold exactly when the candidate
is strictly better in the lexicographic order, or ties on all three criteria at
a different prescaler. -/
theorem clauses_iff (b s o b0 s0 o0 : ℚ) (p p0 : Int) :
    (b < b0 ∨ (b ≤ b0 ∧ s < s0) ∨ (b ≤ b0 ∧ s ≤ s0 ∧ o0 < o) ∨
        (b ≤ b0 ∧ s ≤ s0 ∧ o0 ≤ o ∧ p0 ≠ p)) ↔
      ((b < b0 ∨ (b = b0 ∧ s < s0) ∨ (b = b0 ∧ s = s0 ∧ o0 < o)) ∨
        ((b = b0 ∧ s = s0 ∧ o = o0) ∧ p0 ≠ p)) := by
  constructor
  · rintro (h | ⟨h1, h2⟩ | ⟨h1, h2, h3⟩ | ⟨h1, h2, h3, h4⟩)
    · exact Or.inl (Or.inl h)
    · rcases h1.lt_or_eq with h | h
      · exact Or.inl (Or.inl h)
      · exact Or.inl (Or.inr (Or.inl ⟨h, h2⟩))
    · rcases h1.lt_or_eq with h | h
      · exact Or.inl (Or.inl h)
      · rcases h2.lt_or_eq with h' | h'
        · exact Or.inl (Or.inr (Or.inl ⟨h, h'⟩))
        · exact Or.inl (Or.inr (Or.inr ⟨h, h', h3⟩))
    · rcases h1.lt_or_eq with h | h
      · exact Or.inl (Or.inl h)
      · rcases h2.lt_or_eq with h' | h'
        · exact Or.inl (Or.inr (Or.inl ⟨h, h'⟩))
        · rcases h3.lt_or_eq with h'' | h''
          · exact Or.inl (Or.inr (Or.inr ⟨h, h', h''⟩))
          · exact Or.inr ⟨⟨h, h', h''.symm⟩, h4⟩
  · rintro ((h | ⟨h1, h2⟩ | ⟨h1, h2, h3⟩) | ⟨⟨h1, h2, h3⟩, h4⟩)
    · exact Or.inl h
    · exact Or.inr (Or.inl ⟨h1.le, h2⟩)
    · exact Or.inr (Or.inr (Or.inl ⟨h1.le, h2.le, h3⟩))
    · exact Or.inr (Or.inr (Or.inr ⟨h1.le, h2.le, h3.ge, h4⟩))

theorem replaces_record_iff (c0 c : Candidate) (h0 : c0.Ranked) (h : c.Ranked) :
    replaces (record c0) c = true ↔
      (c.key < c0.key ∨ (c.key = c0.key ∧ c0.prescaler ≠ c.prescaler)) := by
  obtain ⟨hb0, -, hs0, ho0⟩ := h0
  obtain ⟨hb, -, hs, ho⟩ := h
  rw [key_lt_iff, key_eq_iff, ← clauses_iff]
  unfold replaces record
  dsimp only
  rw [hb0, hs0, ho0, hb, hs, ho]
  simp only [JSNum.lt, JSNum.le, JSNum.toRat, Bool.or_eq_true, Bool.and_eq_true,
    decide_eq_true_eq, bne_iff_ne, ne_eq]
  tauto

theorem replaces_initial (c : Candidate) (h : c.Ranked) : replaces initialResult c = true := by
  obtain ⟨hb, hlt, -, -⟩ := h
  unfold replaces initialResult
  dsimp only
  rw [hb]
  simp [JSNum.lt, hlt]

/-- The fold of the comparison over candidates visited in loop order keeps a
best-ranked candidate; among the best-ranked ones it keeps the one with the
lowest prescaler and, at that prescaler, the lowest `propSeg`. -/
theorem foldl_update_best (l : List Candidate) (hr : ∀ c ∈ l, c.Ranked)
    (hs : l.Pairwise LoopOrder) :
    (l = [] ∧ l.foldl update initialResult = initialResult) ∨
      ∃ c0 ∈ l, l.foldl update initialResult = record c0 ∧
        ∀ c ∈ l, c0.key ≤ c.key ∧
          (c0.key = c.key → c0.prescaler ≤ c.prescaler ∧
            (c0.prescaler = c.prescaler → c0.propSeg ≤ c.propSeg)) := by
  induction l using List.reverseRecOn with
  | nil => exact Or.inl ⟨rfl, rfl⟩
  | append_singleton l a ih =>
    right
    rw [List.pairwise_append] at hs
    obtain ⟨hs1, -, hs2⟩ := hs
    have ha : a.Ranked := hr a (by simp)
    have hl : ∀ c ∈ l, c.Ranked := fun c hc => hr c (List.mem_append_left _ hc)
    rw [List.foldl_append, List.foldl_cons, List.foldl_nil]
    rcases ih hl hs1 with ⟨hnil, hinit⟩ | ⟨c0, hc0, hrec, hbest⟩
    · subst hnil
      refine ⟨a, by simp, ?_, ?_⟩
      · rw [hinit]
        unfold update
        rw [if_pos (replaces_initial a ha)]
      · intro c hc
        simp only [List.nil_append, List.mem_singleton] at hc
        subst hc
        exact ⟨le_refl _, fun _ => ⟨le_refl _, fun _ => le_refl _⟩⟩
    · have horder : LoopOrder c0 a := hs2 c0 hc0 a (by simp)
      rw [hrec]
      unfold update
      by_cases hrep : replaces (record c0) a = true
      · rw [if_pos hrep]
        refine ⟨a, by simp, rfl, ?_⟩
        intro c hc
        rcases List.mem_append.1 hc with hc | hc
        · obtain ⟨hle, htie⟩ := hbest c hc
          rcases (replaces_record_iff c0 a (hl c0 hc0) ha).1 hrep with hlt | ⟨heq, hne⟩
          · exact ⟨(lt_of_lt_of_le hlt hle).le, fun e => absurd e (lt_of_lt_of_le hlt hle).ne⟩
          · have hpa : a.prescaler < c0.prescaler := by
              rcases horder with h | ⟨h, -⟩
              · exact h
              · exact absurd h.symm hne
            refine ⟨heq ▸ hle, fun e => ?_⟩
            have := (htie (heq ▸ e)).1
            exact ⟨by omega, fun e' => by omega⟩
        · simp only [List.mem_singleton] at hc
          subst hc
          exact ⟨le_refl _, fun _ => ⟨le_refl _, fun _ => le_refl _⟩⟩
      · rw [if_neg hrep]
        refine ⟨c0, List.mem_append_left _ hc0, rfl, ?_⟩
        intro c hc
        rcases List.mem_append.1 hc with hc | hc
        · exact hbest c hc
        · simp only [List.mem_singleton] at hc
          subst hc
          have hno := mt (replaces_record_iff c0 c (hl c0 hc0) ha).2 hrep
          rw [not_or, not_and, not_not] at hno
          refine ⟨not_lt.1 hno.1, fun e => ?_⟩
          have hp := hno.2 e.symm
          rcases horder with h | ⟨-, h⟩
          · omega
          · exact ⟨by omega, fun _ => by omega⟩

/-! ## Loop order of the candidates -/

theorem candidate_prescaler_propSeg {cap : DeviceCapability} {desiredBaud desiredSamplePoint : ℚ}
    {prescaler timeQuanta propSeg : Int} {c : Candidate}
    (h : candidate cap desiredBaud desiredSamplePoint prescaler timeQuanta propSeg = some c) :
    c.prescaler = prescaler ∧ c.propSeg = propSeg := by
  obtain ⟨-, rfl⟩ := (candidate_eq_some _ _ _ _ _ _ _).1 h
  exact ⟨rfl, rfl⟩

theorem prescaler_of_mem_candidatesAt {cap : DeviceCapability}
    {desiredBaud desiredSamplePoint : ℚ} {prescaler : Int} {c : Candidate}
    (h : c ∈ candidatesAt cap desiredBaud desiredSamplePoint prescaler) :
    c.prescaler = prescaler := by
  obtain ⟨tq, ps, -, -, -, -, -, hc⟩ := (mem_candidatesAt _ _ _ _ _).1 h
  exact (candidate_prescaler_propSeg hc).1

theorem pairwise_candidatesAt (cap : DeviceCapability) (desiredBaud desiredSamplePoint : ℚ)
    (prescaler : Int) :
    (candidatesAt cap desiredBaud desiredSamplePoint prescaler).Pairwise LoopOrder := by
  unfold candidatesAt
  cases timeQuantaOf cap desiredBaud prescaler with
  | none => exact List.Pairwise.nil
  | some timeQuanta =>
    dsimp only
    split
    · refine List.Pairwise.filterMap _ ?_ (pairwise_upTo _ _)
      intro a a' haa c hc c' hc'
      obtain ⟨h1, h2⟩ := candidate_prescaler_propSeg (Option.mem_def.1 hc)
      obtain ⟨h1', h2'⟩ := candidate_prescaler_propSeg (Option.mem_def.1 hc')
      exact Or.inr ⟨by omega, by omega⟩
    · exact List.Pairwise.nil

/-- The candidates are listed in loop order. -/
theorem pairwise_allCandidates (cap : DeviceCapability) (desiredBaud desiredSamplePoint : ℚ) :
    (allCandidates cap desiredBaud desiredSamplePoint).Pairwise LoopOrder := by
  unfold allCandidates
  rw [List.pairwise_flatMap]
  refine ⟨fun p _ => pairwise_candidatesAt _ _ _ p, ?_⟩
  refine (pairwise_downFrom _ _).imp ?_
  intro p p' hpp c hc c' hc'
  have h1 := prescaler_of_mem_candidatesAt hc
  have h2 := prescaler_of_mem_candidatesAt hc'
  exact Or.inl (by omega)

/-! ## Finite values on well-formed input -/

theorem JSNum.div_ofInt (a b : Int) (hb : b ≠ 0) :
    JSNum.div (ofInt a) (ofInt b) = fin ((a : ℚ) / (b : ℚ)) := by
  unfold JSNum.div ofInt
  have : (b : ℚ) ≠ 0 := Int.cast_ne_zero.2 hb
  simp [this]

theorem JSNum.div_fin (x y : ℚ) (hy : y ≠ 0) : JSNum.div (fin x) (fin y) = fin (x / y) := by
  unfold JSNum.div
  simp [hy]

theorem JSNum.min_fin (x y : ℚ) : JSNum.min (fin x) (fin y) = fin (Min.min x y) := by
  unfold JSNum.min
  simp only [JSNum.lt, decide_eq_true_eq]
  by_cases h : y < x
  · rw [if_pos h, min_eq_right h.le]
  · rw [if_neg h, min_eq_left (not_lt.1 h)]

theorem timeQuantaOf_eq (cap : DeviceCapability) (desiredBaud : ℚ) (prescaler : Int)
    (hp : prescaler ≠ 0) (hb : desiredBaud ≠ 0) :
    timeQuantaOf cap desiredBaud prescaler =
      some ⌊(cap.clock : ℚ) / (prescaler : ℚ) / desiredBaud + 1 / 2⌋ := by
  unfold timeQuantaOf
  rw [JSNum.div_ofInt _ _ hp, JSNum.div_fin _ _ hb]
  rfl

theorem calculatedBaudOf_eq (cap : DeviceCapability) (prescaler timeQuanta : Int)
    (h : prescaler * timeQuanta ≠ 0) :
    calculatedBaudOf cap prescaler timeQuanta =
      fin ((cap.clock : ℚ) / ((prescaler * timeQuanta : Int) : ℚ)) := by
  unfold calculatedBaudOf
  rw [JSNum.div_ofInt _ _ h]

theorem baudErrorOf_eq (cap : DeviceCapability) (desiredBaud : ℚ) (prescaler timeQuanta : Int)
    (h : prescaler * timeQuanta ≠ 0) :
    baudErrorOf cap desiredBaud prescaler timeQuanta =
      fin |(cap.clock : ℚ) / ((prescaler * timeQuanta : Int) : ℚ) - desiredBaud| := by
  unfold baudErrorOf
  rw [calculatedBaudOf_eq _ _ _ h]
  rfl

theorem df1Of_eq (timeQuanta propSeg : Int)
    (h : 2 * ((13 * timeQuanta) - phaseSeg2Of timeQuanta propSeg) ≠ 0) :
    df1Of timeQuanta propSeg =
      fin (((Min.min (phaseSeg1Of timeQuanta propSeg) (phaseSeg2Of timeQuanta propSeg) : Int) : ℚ) /
        ((2 * ((13 * timeQuanta) - phaseSeg2Of timeQuanta propSeg) : Int) : ℚ)) := by
  unfold df1Of
  rw [JSNum.div_ofInt _ _ h]

theorem df2Of_eq (cap : DeviceCapability) (timeQuanta propSeg : Int) (h : 20 * timeQuanta ≠ 0) :
    df2Of cap timeQuanta propSeg =
      fin ((maxSJWOf cap timeQuanta propSeg : ℚ) / ((20 * timeQuanta : Int) : ℚ)) := by
  unfold df2Of
  rw [JSNum.div_ofInt _ _ h]

theorem samplePointOf_eq (timeQuanta propSeg : Int) (h : timeQuanta ≠ 0) :
    samplePointOf timeQuanta propSeg =
      fin (((SYNC_SEG + propSeg + phaseSeg1Of timeQuanta propSeg : Int) : ℚ) /
        (timeQuanta : ℚ) * 100) := by
  unfold samplePointOf
  rw [JSNum.div_ofInt _ _ h]
  rfl

theorem samplePointErrorOf_eq (desiredSamplePoint : ℚ) (timeQuanta propSeg : Int)
    (h : timeQuanta ≠ 0) :
    samplePointErrorOf desiredSamplePoint timeQuanta propSeg =
      fin |desiredSamplePoint -
        ((SYNC_SEG + propSeg + phaseSeg1Of timeQuanta propSeg : Int) : ℚ) /
          (timeQuanta : ℚ) * 100| := by
  unfold samplePointErrorOf
  rw [samplePointOf_eq _ _ h]
  rfl

/-- The divisor of `df1` is positive once `timeQuanta >= 1` and `propSeg >= 0`. -/
theorem df1_divisor_pos (timeQuanta propSeg : Int) (htq : 1 ≤ timeQuanta) (hps : 0 ≤ propSeg) :
    0 < 2 * ((13 * timeQuanta) - phaseSeg2Of timeQuanta propSeg) := by
  rw [phaseSeg2Of_eq]
  omega

theorem oscillatorToleranceOf_eq (cap : DeviceCapability) (timeQuanta propSeg : Int)
    (htq : 1 ≤ timeQuanta) (hps : 0 ≤ propSeg) :
    oscillatorToleranceOf cap timeQuanta propSeg =
      fin (Min.min
        (((Min.min (phaseSeg1Of timeQuanta propSeg) (phaseSeg2Of timeQuanta propSeg) : Int) : ℚ) /
          ((2 * ((13 * timeQuanta) - phaseSeg2Of timeQuanta propSeg) : Int) : ℚ))
        ((maxSJWOf cap timeQuanta propSeg : ℚ) / ((20 * timeQuanta : Int) : ℚ))) := by
  unfold oscillatorToleranceOf
  rw [df1Of_eq _ _ (df1_divisor_pos _ _ htq hps).ne', df2Of_eq _ _ _ (by omega), JSNum.min_fin]

/-- With `timeQuanta >= 1` and `propSeg >= 0`, the test of line 67 lets a
candidate through exactly when `phaseSeg1` and the capability's `maxSJW` are
non-negative. -/
theorem oscillatorTolerance_check_iff (cap : DeviceCapability) (timeQuanta propSeg : Int)
    (htq : 1 ≤ timeQuanta) (hps : 0 ≤ propSeg) :
    JSNum.lt (oscillatorToleranceOf cap timeQuanta propSeg) (fin 0) = false ↔
      0 ≤ phaseSeg1Of timeQuanta propSeg ∧ 0 ≤ cap.maxSJW := by
  rw [oscillatorToleranceOf_eq _ _ _ htq hps]
  have hD : (0 : ℚ) < ((2 * ((13 * timeQuanta) - phaseSeg2Of timeQuanta propSeg) : Int) : ℚ) :=
    Int.cast_pos.2 (df1_divisor_pos _ _ htq hps)
  have hT : (0 : ℚ) < ((20 * timeQuanta : Int) : ℚ) := Int.cast_pos.2 (by omega)
  have h12 : phaseSeg1Of timeQuanta propSeg ≤ phaseSeg2Of timeQuanta propSeg := by
    rw [phaseSeg1Of_eq, phaseSeg2Of_eq]
    omega
  simp only [JSNum.lt, decide_eq_false_iff_not, not_lt, le_min_iff]
  rw [div_nonneg_iff, div_nonneg_iff]
  simp only [Int.cast_nonneg, not_le.2 hD, not_le.2 hT, hD.le, hT.le, and_true, and_false,
    or_false, Int.cast_nonneg]
  unfold maxSJWOf
  constructor
  · rintro ⟨h1, h2⟩
    omega
  · rintro ⟨h1, h2⟩
    omega

/-- On a capability with `minPS >= 1` and non-negative `minPropSeg`, `minTSeg1`
and `minTSeg2`, every enumerated pair has `prescaler >= 1`, `timeQuanta >= 1`
and `propSeg >= 0`. -/
theorem enumerated_bounds {cap : DeviceCapability} {desiredBaud : ℚ}
    {prescaler timeQuanta propSeg : Int} (hPS : 1 ≤ cap.minPS) (hProp : 0 ≤ cap.minPropSeg)
    (h1 : 0 ≤ cap.minTSeg1) (h2 : 0 ≤ cap.minTSeg2)
    (he : Enumerated cap desiredBaud prescaler timeQuanta propSeg) :
    1 ≤ prescaler ∧ 1 ≤ timeQuanta ∧ 0 ≤ propSeg := by
  obtain ⟨e1, -, -, e4, -, e6, -⟩ := he
  unfold windowMinTQ SYNC_SEG at e4
  omega

/-- The fields of a candidate on such a capability: all five are finite, with
the values of lines 36, 37, 66, 72 and 73. -/
theorem candidate_fields {cap : DeviceCapability} {desiredBaud desiredSamplePoint : ℚ}
    {prescaler timeQuanta propSeg : Int} {c : Candidate} (hPS : 1 ≤ cap.minPS)
    (hProp : 0 ≤ cap.minPropSeg) (h1 : 0 ≤ cap.minTSeg1) (h2 : 0 ≤ cap.minTSeg2)
    (he : Enumerated cap desiredBaud prescaler timeQuanta propSeg)
    (hc : candidate cap desiredBaud desiredSamplePoint prescaler timeQuanta propSeg = some c) :
    c.baudRate = fin ((cap.clock : ℚ) / ((prescaler * timeQuanta : Int) : ℚ)) ∧
    c.baudError = fin |(cap.clock : ℚ) / ((prescaler * timeQuanta : Int) : ℚ) - desiredBaud| ∧
    c.samplePoint =
      fin (((SYNC_SEG + propSeg + phaseSeg1Of timeQuanta propSeg : Int) : ℚ) /
        (timeQuanta : ℚ) * 100) ∧
    c.samplePointError =
      fin |desiredSamplePoint -
        ((SYNC_SEG + propSeg + phaseSeg1Of timeQuanta propSeg : Int) : ℚ) /
          (timeQuanta : ℚ) * 100| ∧
    c.oscillatorTolerance =
      fin (Min.min
        (((Min.min (phaseSeg1Of timeQuanta propSeg) (phaseSeg2Of timeQuanta propSeg) : Int) : ℚ) /
          ((2 * ((13 * timeQuanta) - phaseSeg2Of timeQuanta propSeg) : Int) : ℚ))
        ((maxSJWOf cap timeQuanta propSeg : ℚ) / ((20 * timeQuanta : Int) : ℚ))) := by
  obtain ⟨hp, htq, hps⟩ := enumerated_bounds hPS hProp h1 h2 he
  obtain ⟨-, rfl⟩ := (candidate_eq_some _ _ _ _ _ _ _).1 hc
  have hpt : prescaler * timeQuanta ≠ 0 := (Int.mul_pos (by omega) (by omega)).ne'
  exact ⟨calculatedBaudOf_eq _ _ _ hpt, baudErrorOf_eq _ _ _ _ hpt,
    samplePointOf_eq _ _ (by omega), samplePointErrorOf_eq _ _ _ (by omega),
    oscillatorToleranceOf_eq _ _ _ htq hps⟩

/-- On well-formed input every candidate enters the ranking with finite
fields and a baud error below `Number.MAX_VALUE`. -/
theorem ranked_of_wellFormed {cap : DeviceCapability} {desiredBaud desiredSamplePoint : ℚ}
    (wf : WellFormed cap desiredBaud) {c : Candidate}
    (hc : c ∈ allCandidates cap desiredBaud desiredSamplePoint) : c.Ranked := by
  obtain ⟨hclk, hPS, -, hProp, h1, h2, hb, hclkM, hbM⟩ := wf
  obtain ⟨p, tq, ps, he, hcand⟩ := (mem_allCandidates _ _ _ _).1 hc
  obtain ⟨hp, htq, hps⟩ := enumerated_bounds hPS hProp h1 h2 he
  obtain ⟨-, hbe, -, hse, hosc⟩ := candidate_fields hPS hProp h1 h2 he hcand
  refine ⟨by rw [hbe]; rfl, ?_, by rw [hse]; rfl, by rw [hosc]; rfl⟩
  rw [hbe]
  show |(cap.clock : ℚ) / ((p * tq : Int) : ℚ) - desiredBaud| < MAX_VALUE
  have hpt : 0 < p * tq := Int.mul_pos (by omega) (by omega)
  have hn : (1 : ℚ) ≤ ((p * tq : Int) : ℚ) := by exact_mod_cast (show 1 ≤ p * tq by omega)
  have hclk' : (1 : ℚ) ≤ (cap.clock : ℚ) := by exact_mod_cast hclk
  have hx0 : 0 < (cap.clock : ℚ) / ((p * tq : Int) : ℚ) := div_pos (by linarith) (by linarith)
  have hx1 : (cap.clock : ℚ) / ((p * tq : Int) : ℚ) ≤ (cap.clock : ℚ) :=
    div_le_self (by linarith) hn
  rw [abs_sub_lt_iff]
  constructor <;> linarith

/-- On well-formed input: with no candidate the initial record is returned;
otherwise the returned record is that of a best-ranked candidate, the one of
lowest prescaler among the best-ranked, and of lowest `propSeg` at that
prescaler. -/
theorem find_best_ranked {cap : DeviceCapability} {desiredBaud : ℚ}
    (desiredSamplePoint : ℚ) (wf : WellFormed cap desiredBaud) :
    (allCandidates cap desiredBaud desiredSamplePoint = [] ∧
        find_best_can_timing_solution cap desiredBaud desiredSamplePoint = initialResult) ∨
      ∃ c0 ∈ allCandidates cap desiredBaud desiredSamplePoint,
        find_best_can_timing_solution cap desiredBaud desiredSamplePoint = record c0 ∧
        ∀ c ∈ allCandidates cap desiredBaud desiredSamplePoint, c0.key ≤ c.key ∧
          (c0.key = c.key → c0.prescaler ≤ c.prescaler ∧
            (c0.prescaler = c.prescaler → c0.propSeg ≤ c.propSeg)) := by
  rw [find_best_eq_foldl]
  exact foldl_update_best _ (fun c hc => ranked_of_wellFormed wf hc)
    (pairwise_allCandidates _ _ _)

/-- On well-formed input a candidate that reaches line 74 is never beaten by
the returned record: the record is that of a best-ranked candidate `c0`. -/
theorem find_best_of_mem {cap : DeviceCapability} {desiredBaud : ℚ}
    (desiredSamplePoint : ℚ) (wf : WellFormed cap desiredBaud) {c : Candidate}
    (hc : c ∈ allCandidates cap desiredBaud desiredSamplePoint) :
    ∃ c0 ∈ allCandidates cap desiredBaud desiredSamplePoint,
      find_best_can_timing_solution cap desiredBaud desiredSamplePoint = record c0 ∧
      c0.key ≤ c.key ∧
      (c0.key = c.key → c0.prescaler ≤ c.prescaler ∧
        (c0.prescaler = c.prescaler → c0.propSeg ≤ c.propSeg)) := by
  rcases find_best_ranked desiredSamplePoint wf with ⟨hnil, -⟩ | ⟨c0, hc0, hrec, hbest⟩
  · rw [hnil] at hc
    exact absurd hc (List.not_mem_nil _)
  · exact ⟨c0, hc0, hrec, hbest c hc⟩

/-- The comparison of two ranked candidates, read on the fields themselves. -/
theorem key_le_fields {c0 c : Candidate} (h0 : c0.Ranked) (h : c.Ranked) (hle : c0.key ≤ c.key) :
    JSNum.le c0.baudError c.baudError = true ∧
    (c0.baudError = c.baudError →
      JSNum.le c0.samplePointError c.samplePointError = true ∧
      (c0.samplePointError = c.samplePointError →
        JSNum.le c.oscillatorTolerance c0.oscillatorTolerance = true)) := by
  obtain ⟨hb0, -, hs0, ho0⟩ := h0
  obtain ⟨hb, -, hs, ho⟩ := h
  obtain ⟨k1, k2⟩ := (key_le_iff c0 c).1 hle
  rw [hb0, hb, hs0, hs, ho0, ho]
  simp only [JSNum.le, decide_eq_true_eq, JSNum.fin.injEq]
  exact ⟨k1, fun e => ⟨(k2 e).1, fun e' => (k2 e).2 e'⟩⟩

theorem key_eq_of_fields {c0 c : Candidate}
    (hb : c0.baudError = c.baudError) (hs : c0.samplePointError = c.samplePointError)
    (ho : c0.oscillatorTolerance = c.oscillatorTolerance) : c0.key = c.key := by
  rw [key_eq_iff, hb, hs, ho]
  exact ⟨rfl, rfl, rfl⟩

/-- On well-formed input a pair that is enumerated and passes the three checks
gives a candidate that the returned record ranks at least as well as. -/
theorem find_best_at_least {cap : DeviceCapability} {desiredBaud : ℚ}
    (desiredSamplePoint : ℚ) (wf : WellFormed cap desiredBaud)
    {prescaler timeQuanta propSeg : Int} {c : Candidate}
    (he : Enumerated cap desiredBaud prescaler timeQuanta propSeg)
    (hc : candidate cap desiredBaud desiredSamplePoint prescaler timeQuanta propSeg = some c) :
    (find_best_can_timing_solution cap desiredBaud desiredSamplePoint).solutionFound = true ∧
    JSNum.le (find_best_can_timing_solution cap desiredBaud desiredSamplePoint).baudError
      c.baudError = true ∧
    ((find_best_can_timing_solution cap desiredBaud desiredSamplePoint).baudError = c.baudError →
      JSNum.le (find_best_can_timing_solution cap desiredBaud desiredSamplePoint).samplePointError
        c.samplePointError = true ∧
      ((find_best_can_timing_solution cap desiredBaud desiredSamplePoint).samplePointError =
          c.samplePointError →
        JSNum.le c.oscillatorTolerance
          (find_best_can_timing_solution cap desiredBaud desiredSamplePoint).oscillatorTolerance =
            true)) := by
  have hmem : c ∈ allCandidates cap desiredBaud desiredSamplePoint :=
    (mem_allCandidates _ _ _ _).2 ⟨_, _, _, he, hc⟩
  obtain ⟨c0, hc0, hrec, hle, -⟩ := find_best_of_mem desiredSamplePoint wf hmem
  rw [hrec]
  exact ⟨rfl, key_le_fields (ranked_of_wellFormed wf hc0) (ranked_of_wellFormed wf hmem) hle⟩

/-- A found solution is the record of a candidate computed at an enumerated
pair: nothing in it is left over from another iteration. -/
theorem find_best_found_at (cap : DeviceCapability) (desiredBaud desiredSamplePoint : ℚ)
    (h : (find_best_can_timing_solution cap desiredBaud desiredSamplePoint).solutionFound = true) :
    ∃ prescaler timeQuanta propSeg c,
      Enumerated cap desiredBaud prescaler timeQuanta propSeg ∧
      candidate cap desiredBaud desiredSamplePoint prescaler timeQuanta propSeg = some c ∧
      find_best_can_timing_solution cap desiredBaud desiredSamplePoint = record c := by
  obtain ⟨c, hc, hrec⟩ := find_best_of_found cap desiredBaud desiredSamplePoint h
  obtain ⟨p, tq, ps, he, hcand⟩ := (mem_allCandidates _ _ _ _).1 hc
  exact ⟨p, tq, ps, c, he, hcand, hrec⟩

theorem JSNum.not_lt_zero_of_le {a : JSNum} (h : JSNum.le (fin 0) a = true) :
    JSNum.lt a (fin 0) = false := by
  cases a with
  | fin x =>
    simp only [JSNum.le, decide_eq_true_eq] at h
    simp only [JSNum.lt, decide_eq_false_iff_not, not_lt]
    exact h
  | pinf => rfl
  | ninf => simp [JSNum.le] at h
  | nan => rfl

theorem JSNum.le_zero_fin_of_not_lt {x : ℚ} (h : JSNum.lt (fin x) (fin 0) = false) :
    JSNum.le (fin 0) (fin x) = true := by
  simp only [JSNum.lt, decide_eq_false_iff_not, not_lt] at h
  simp only [JSNum.le, decide_eq_true_eq]
  exact h

/-- A pair that passes the three checks of lines 55-70 yields a candidate. -/
theorem candidate_of_checks (cap : DeviceCapability) (desiredBaud desiredSamplePoint : ℚ)
    (prescaler timeQuanta propSeg : Int)
    (h1 : cap.minTSeg1 ≤ propSeg + phaseSeg1Of timeQuanta propSeg)
    (h2 : propSeg + phaseSeg1Of timeQuanta propSeg ≤ cap.maxTSeg1)
    (h3 : cap.minTSeg2 ≤ phaseSeg2Of timeQuanta propSeg)
    (h4 : phaseSeg2Of timeQuanta propSeg ≤ cap.maxTSeg2)
    (h5 : JSNum.lt (oscillatorToleranceOf cap timeQuanta propSeg) (fin 0) = false) :
    candidate cap desiredBaud desiredSamplePoint prescaler timeQuanta propSeg =
      some { baudRate := calculatedBaudOf cap prescaler timeQuanta,
             baudError := baudErrorOf cap desiredBaud prescaler timeQuanta,
             samplePoint := samplePointOf timeQuanta propSeg,
             samplePointError := samplePointErrorOf desiredSamplePoint timeQuanta propSeg,
             oscillatorTolerance := oscillatorToleranceOf cap timeQuanta propSeg,
             prescaler := prescaler, propSeg := propSeg,
             phaseSeg1 := phaseSeg1Of timeQuanta propSeg,
             phaseSeg2 := phaseSeg2Of timeQuanta propSeg,
             maxSJW := maxSJWOf cap timeQuanta propSeg } :=
  (candidate_eq_some _ _ _ _ _ _ _).2 ⟨⟨h1, h2, h3, h4, h5⟩, rfl⟩

/-! ## Inputs used as examples -/

/-- A small capability with a single prescaler: at `desiredBaud = 1` the bit
has 10 time quanta and the inner loop runs `propSeg` over `0 .. 3`. -/
def smallCapability : DeviceCapability :=
  { clock := 10, minPS := 1, maxPS := 1, minTQ := 0, maxTQ := 100, minPropSeg := 0,
    maxPropSeg := 100, minTSeg1 := 5, maxTSeg1 := 100, minTSeg2 := 1, maxTSeg2 := 100,
    maxSJW := 100 }

/-- The candidate of `smallCapability` at `prescaler = 1`, `propSeg = 3`, for
`desiredBaud = 1` and `desiredSamplePoint = 90`. -/
def smallCandidate : Candidate :=
  { baudRate := fin 1, baudError := fin 0, samplePoint := fin 70, samplePointError := fin 20,
    oscillatorTolerance := fin (3 / 254), prescaler := 1, propSeg := 3, phaseSeg1 := 3,
    phaseSeg2 := 3, maxSJW := 3 }

/-- A capability whose prescaler range is empty. -/
def emptyCapability : DeviceCapability :=
  { smallCapability with minPS := 2, maxPS := 1 }

/-- The example capability with `maxPropSeg = 381`. -/
def exampleCapability381 : DeviceCapability :=
  { exampleCapability with maxPropSeg := 381 }

/-- The candidate of the example at `prescaler = 20`, `propSeg = 5`. -/
def exampleCandidate20 : Candidate :=
  { baudRate := fin 500000, baudError := fin 0, samplePoint := fin (175 / 2),
    samplePointError := fin 0, oscillatorTolerance := fin (1 / 206), prescaler := 20,
    propSeg := 5, phaseSeg1 := 1, phaseSeg2 := 1, maxSJW := 1 }

/-- A capability whose only propagation segment length is 5: at
`desiredBaud = 1` the bit has 8 time quanta, split `1 + 5 + 1 + 1`. -/
def narrowCapability : DeviceCapability :=
  { clock := 8, minPS := 1, maxPS := 1, minTQ := 0, maxTQ := 100, minPropSeg := 5,
    maxPropSeg := 5, minTSeg1 := 2, maxTSeg1 := 100, minTSeg2 := 1, maxTSeg2 := 1,
    maxSJW := 10 }

/-- The capability `narrowCapability` with `minPropSeg` lowered to 0. -/
def widenedCapability : DeviceCapability :=
  { narrowCapability with minPropSeg := 0 }

/-- The capability `smallCapability` with `maxTQ` raised to 200. -/
def smallCapabilityWide : DeviceCapability :=
  { smallCapability with maxTQ := 200 }

/-- The capability `C'` widens `C`: same clock, every `min*` field of `C'` at
most that of `C`, every `max*` field of `C'` at least that of `C`. -/
def Widens (C C' : DeviceCapability) : Prop :=
  C'.clock = C.clock ∧
  C'.minPS ≤ C.minPS ∧ C.maxPS ≤ C'.maxPS ∧
  C'.minTQ ≤ C.minTQ ∧ C.maxTQ ≤ C'.maxTQ ∧
  C'.minPropSeg ≤ C.minPropSeg ∧ C.maxPropSeg ≤ C'.maxPropSeg ∧
  C'.minTSeg1 ≤ C.minTSeg1 ∧ C.maxTSeg1 ≤ C'.maxTSeg1 ∧
  C'.minTSeg2 ≤ C.minTSeg2 ∧ C.maxTSeg2 ≤ C'.maxTSeg2 ∧
  C.maxSJW ≤ C'.maxSJW

instance (C C' : DeviceCapability) : Decidable (Widens C C') := by
  unfold Widens; infer_instance

set_option maxRecDepth 1000000 in
/-- The run of the example of lines 99-115. -/
theorem find_best_example :
    find_best_can_timing_solution exampleCapability 500000 (175 / 2) =
      { solutionFound := true, baudRate := fin 500000, baudError := fin 0,
        samplePoint := fin (175 / 2), samplePointError := fin 0,
        oscillatorTolerance := fin (1 / 206), prescaler := 1, propSeg := 119,
        pseg1 := some 20, pseg2 := some 20, maxSJW := 20 } := by
  decide!

set_option maxRecDepth 1000000 in
/-- The run of the example with `maxPropSeg = 381`. -/
theorem find_best_example381 :
    find_best_can_timing_solution exampleCapability381 500000 (175 / 2) =
      { solutionFound := true, baudRate := fin 500000, baudError := fin 0,
        samplePoint := fin (175 / 2), samplePointError := fin 0,
        oscillatorTolerance := fin (1 / 206), prescaler := 1, propSeg := 119,
        pseg1 := some 20, pseg2 := some 20, maxSJW := 20 } := by
  decide!

/-- The rounded quotient of line 33 does not grow with the prescaler. -/
theorem timeQuantaOf_antitone {cap : DeviceCapability} {desiredBaud : ℚ} {p p' tq tq' : Int}
    (hclk : 0 ≤ cap.clock) (hb : 0 < desiredBaud) (hp : 1 ≤ p) (hpp : p ≤ p')
    (h : timeQuantaOf cap desiredBaud p = some tq)
    (h' : timeQuantaOf cap desiredBaud p' = some tq') : tq' ≤ tq := by
  rw [timeQuantaOf_eq _ _ _ (by omega) hb.ne'] at h h'
  simp only [Option.some.injEq] at h h'
  subst h h'
  have hpq : (0 : ℚ) < (p : ℚ) := by exact_mod_cast (show 0 < p by omega)
  have hpp' : (p : ℚ) ≤ (p' : ℚ) := by exact_mod_cast hpp
  have hc : (0 : ℚ) ≤ (cap.clock : ℚ) := by exact_mod_cast hclk
  apply Int.floor_le_floor
  have h1 : (cap.clock : ℚ) / (p' : ℚ) ≤ (cap.clock : ℚ) / (p : ℚ) :=
    div_le_div_of_nonneg_left hc hpq hpp'
  have h2 : (cap.clock : ℚ) / (p' : ℚ) / desiredBaud ≤ (cap.clock : ℚ) / (p : ℚ) / desiredBaud :=
    div_le_div_of_nonneg_right h1 hb.le
  linarith

/-! ## The claims -/

/-- C1. Best-ranked among the enumerated candidates: on well-formed input with
a found solution, for every candidate the loops enumerate and do not reject,
the returned `baudError` is at most the candidate's; if they are equal the
returned `samplePointError` is at most the candidate's; and if both are equal
the returned `oscillatorTolerance` is at least the candidate's. -/
theorem best_ranked_among_enumerated (cap : DeviceCapability)
    (desiredBaud desiredSamplePoint : ℚ) (wf : WellFormed cap desiredBaud)
    (_hfound :
      (find_best_can_timing_solution cap desiredBaud desiredSamplePoint).solutionFound = true)
    (prescaler timeQuanta propSeg : Int) (c : Candidate)
    (he : Enumerated cap desiredBaud prescaler timeQuanta propSeg)
    (hc : candidate cap desiredBaud desiredSamplePoint prescaler timeQuanta propSeg = some c) :
    JSNum.le (find_best_can_timing_solution cap desiredBaud desiredSamplePoint).baudError
      c.baudError = true ∧
    ((find_best_can_timing_solution cap desiredBaud desiredSamplePoint).baudError = c.baudError →
      JSNum.le (find_best_can_timing_solution cap desiredBaud desiredSamplePoint).samplePointError
        c.samplePointError = true ∧
      ((find_best_can_timing_solution cap desiredBaud desiredSamplePoint).samplePointError =
          c.samplePointError →
        JSNum.le c.oscillatorTolerance
          (find_best_can_timing_solution cap desiredBaud desiredSamplePoint).oscillatorTolerance =
            true)) :=
  (find_best_at_least desiredSamplePoint wf he hc).2

set_option maxRecDepth 100000 in
/-- C1 at `smallCapability`, against the candidate at `propSeg = 3`. -/
theorem best_ranked_among_enumerated_witness :
    WellFormed smallCapability 1 ∧
    (find_best_can_timing_solution smallCapability 1 90).solutionFound = true ∧
    Enumerated smallCapability 1 1 10 3 ∧
    candidate smallCapability 1 90 1 10 3 = some smallCandidate ∧
    JSNum.le (find_best_can_timing_solution smallCapability 1 90).baudError
      smallCandidate.baudError = true ∧
    ((find_best_can_timing_solution smallCapability 1 90).baudError = smallCandidate.baudError →
      JSNum.le (find_best_can_timing_solution smallCapability 1 90).samplePointError
        smallCandidate.samplePointError = true ∧
      ((find_best_can_timing_solution smallCapability 1 90).samplePointError =
          smallCandidate.samplePointError →
        JSNum.le smallCandidate.oscillatorTolerance
          (find_best_can_timing_solution smallCapability 1 90).oscillatorTolerance = true)) :=
  ⟨by decide!, by decide!, by decide!, by decide!,
    best_ranked_among_enumerated smallCapability 1 90 (by decide!) (by decide!) 1 10 3
      smallCandidate (by decide!) (by decide!)⟩

/-- C2, as amended.  On well-formed input, every prescaler in `[minPS, maxPS]`
whose `timeQuanta` lies in the TQ window and every `propSeg` in
`[minPropSeg, min(maxPropSeg, timeQuanta - (1 + (minTSeg1 - minPropSeg) + minTSeg2))]`
whose even split passes the TSeg1 and TSeg2 range checks with
`oscillatorTolerance >= 0` is enumerated: a solution is found and it ranks at
least as well as that combination. -/
theorem feasible_within_cap_enumerated (cap : DeviceCapability)
    (desiredBaud desiredSamplePoint : ℚ) (wf : WellFormed cap desiredBaud)
    (prescaler timeQuanta propSeg : Int)
    (he : Enumerated cap desiredBaud prescaler timeQuanta propSeg)
    (h1 : cap.minTSeg1 ≤ propSeg + phaseSeg1Of timeQuanta propSeg)
    (h2 : propSeg + phaseSeg1Of timeQuanta propSeg ≤ cap.maxTSeg1)
    (h3 : cap.minTSeg2 ≤ phaseSeg2Of timeQuanta propSeg)
    (h4 : phaseSeg2Of timeQuanta propSeg ≤ cap.maxTSeg2)
    (h5 : JSNum.le (fin 0) (oscillatorToleranceOf cap timeQuanta propSeg) = true) :
    (find_best_can_timing_solution cap desiredBaud desiredSamplePoint).solutionFound = true ∧
    JSNum.le (find_best_can_timing_solution cap desiredBaud desiredSamplePoint).baudError
      (baudErrorOf cap desiredBaud prescaler timeQuanta) = true ∧
    ((find_best_can_timing_solution cap desiredBaud desiredSamplePoint).baudError =
        baudErrorOf cap desiredBaud prescaler timeQuanta →
      JSNum.le (find_best_can_timing_solution cap desiredBaud desiredSamplePoint).samplePointError
        (samplePointErrorOf desiredSamplePoint timeQuanta propSeg) = true ∧
      ((find_best_can_timing_solution cap desiredBaud desiredSamplePoint).samplePointError =
          samplePointErrorOf desiredSamplePoint timeQuanta propSeg →
        JSNum.le (oscillatorToleranceOf cap timeQuanta propSeg)
          (find_best_can_timing_solution cap desiredBaud desiredSamplePoint).oscillatorTolerance =
            true)) :=
  find_best_at_least desiredSamplePoint wf he
    (candidate_of_checks cap desiredBaud desiredSamplePoint prescaler timeQuanta propSeg
      h1 h2 h3 h4 (JSNum.not_lt_zero_of_le h5))

set_option maxRecDepth 100000 in
/-- C2 as amended, at `smallCapability` and the pair `(1, 3)`. -/
theorem feasible_within_cap_enumerated_witness :
    WellFormed smallCapability 1 ∧ Enumerated smallCapability 1 1 10 3 ∧
    (find_best_can_timing_solution smallCapability 1 90).solutionFound = true ∧
    JSNum.le (find_best_can_timing_solution smallCapability 1 90).baudError
      (baudErrorOf smallCapability 1 1 10) = true ∧
    ((find_best_can_timing_solution smallCapability 1 90).baudError =
        baudErrorOf smallCapability 1 1 10 →
      JSNum.le (find_best_can_timing_solution smallCapability 1 90).samplePointError
        (samplePointErrorOf 90 10 3) = true ∧
      ((find_best_can_timing_solution smallCapability 1 90).samplePointError =
          samplePointErrorOf 90 10 3 →
        JSNum.le (oscillatorToleranceOf smallCapability 10 3)
          (find_best_can_timing_solution smallCapability 1 90).oscillatorTolerance = true)) :=
  ⟨by decide!, by decide!,
    feasible_within_cap_enumerated smallCapability 1 90 (by decide!) 1 10 3 (by decide!)
      (by decide!) (by decide!) (by decide!) (by decide!) (by decide!)⟩

set_option maxRecDepth 100000 in
/-- C2 fails as stated.  On `smallCapability` with `desiredBaud = 1` and
`desiredSamplePoint = 90`, the pair `prescaler = 1`, `propSeg = 7` has
`timeQuanta = 10` in the window, `propSeg` in `[minPropSeg, maxPropSeg]`, a
split `(1, 1)` that passes both range checks and a non-negative oscillator
tolerance; its sample point is exactly 90.  The cap of line 38 is 3, so the
pair is never visited, and the returned solution (sample point 70) has the same
baud error and a strictly larger sample point error. -/
theorem cap_excludes_feasible_propSeg :
    WellFormed smallCapability 1 ∧
    smallCapability.minPS ≤ 1 ∧ 1 ≤ smallCapability.maxPS ∧
    timeQuantaOf smallCapability 1 1 = some 10 ∧
    windowMinTQ smallCapability ≤ 10 ∧ 10 ≤ windowMaxTQ smallCapability ∧
    smallCapability.minPropSeg ≤ 7 ∧ 7 ≤ smallCapability.maxPropSeg ∧
    smallCapability.minTSeg1 ≤ 7 + phaseSeg1Of 10 7 ∧
    7 + phaseSeg1Of 10 7 ≤ smallCapability.maxTSeg1 ∧
    smallCapability.minTSeg2 ≤ phaseSeg2Of 10 7 ∧ phaseSeg2Of 10 7 ≤ smallCapability.maxTSeg2 ∧
    JSNum.le (fin 0) (oscillatorToleranceOf smallCapability 10 7) = true ∧
    maxPropSegAt smallCapability 10 = 3 ∧
    (find_best_can_timing_solution smallCapability 1 90).baudError =
      baudErrorOf smallCapability 1 1 10 ∧
    samplePointErrorOf 90 10 7 = fin 0 ∧
    (find_best_can_timing_solution smallCapability 1 90).samplePointError = fin 20 ∧
    ¬ ((find_best_can_timing_solution smallCapability 1 90).solutionFound = true ∧
      JSNum.le (find_best_can_timing_solution smallCapability 1 90).baudError
        (baudErrorOf smallCapability 1 1 10) = true ∧
      ((find_best_can_timing_solution smallCapability 1 90).baudError =
          baudErrorOf smallCapability 1 1 10 →
        JSNum.le (find_best_can_timing_solution smallCapability 1 90).samplePointError
          (samplePointErrorOf 90 10 7) = true ∧
        ((find_best_can_timing_solution smallCapability 1 90).samplePointError =
            samplePointErrorOf 90 10 7 →
          JSNum.le (oscillatorToleranceOf smallCapability 10 7)
            (find_best_can_timing_solution smallCapability 1 90).oscillatorTolerance =
              true))) := by
  decide!

/-- C3. Range containment: whenever a solution is found, the returned record
has `minTSeg1 <= propSeg + pseg1 <= maxTSeg1`, `minTSeg2 <= pseg2 <= maxTSeg2`
and `minPS <= prescaler <= maxPS`, for the bounds of the input capability. -/
theorem range_containment (cap : DeviceCapability) (desiredBaud desiredSamplePoint : ℚ)
    (hfound :
      (find_best_can_timing_solution cap desiredBaud desiredSamplePoint).solutionFound = true) :
    ∃ pseg1 pseg2,
      (find_best_can_timing_solution cap desiredBaud desiredSamplePoint).pseg1 = some pseg1 ∧
      (find_best_can_timing_solution cap desiredBaud desiredSamplePoint).pseg2 = some pseg2 ∧
      cap.minTSeg1 ≤
        (find_best_can_timing_solution cap desiredBaud desiredSamplePoint).propSeg + pseg1 ∧
      (find_best_can_timing_solution cap desiredBaud desiredSamplePoint).propSeg + pseg1 ≤
        cap.maxTSeg1 ∧
      cap.minTSeg2 ≤ pseg2 ∧ pseg2 ≤ cap.maxTSeg2 ∧
      cap.minPS ≤ (find_best_can_timing_solution cap desiredBaud desiredSamplePoint).prescaler ∧
      (find_best_can_timing_solution cap desiredBaud desiredSamplePoint).prescaler ≤
        cap.maxPS := by
  obtain ⟨p, tq, ps, c, he, hc, hrec⟩ := find_best_found_at cap desiredBaud desiredSamplePoint hfound
  obtain ⟨⟨h1, h2, h3, h4, -⟩, rfl⟩ := (candidate_eq_some _ _ _ _ _ _ _).1 hc
  rw [hrec]
  exact ⟨_, _, rfl, rfl, h1, h2, h3, h4, he.1, he.2.1⟩

set_option maxRecDepth 100000 in
/-- C3 at `smallCapability`. -/
theorem range_containment_witness :
    (find_best_can_timing_solution smallCapability 1 90).solutionFound = true ∧
    ∃ pseg1 pseg2,
      (find_best_can_timing_solution smallCapability 1 90).pseg1 = some pseg1 ∧
      (find_best_can_timing_solution smallCapability 1 90).pseg2 = some pseg2 ∧
      smallCapability.minTSeg1 ≤
        (find_best_can_timing_solution smallCapability 1 90).propSeg + pseg1 ∧
      (find_best_can_timing_solution smallCapability 1 90).propSeg + pseg1 ≤
        smallCapability.maxTSeg1 ∧
      smallCapability.minTSeg2 ≤ pseg2 ∧ pseg2 ≤ smallCapability.maxTSeg2 ∧
      smallCapability.minPS ≤ (find_best_can_timing_solution smallCapability 1 90).prescaler ∧
      (find_best_can_timing_solution smallCapability 1 90).prescaler ≤ smallCapability.maxPS :=
  ⟨by decide!, range_containment smallCapability 1 90 (by decide!)⟩

/-- C4. Segment sum invariant: for all integers `timeQuanta` and `propSeg`
(whatever the sign and parity of the remaining time quanta) the split satisfies
`SYNC_SEG + propSeg + phaseSeg1 + phaseSeg2 = timeQuanta`, so the assertion of
line 53 never fails; and every returned solution satisfies
`1 + propSeg + pseg1 + pseg2 = round(clock / prescaler / desiredBaud)`. -/
theorem segment_sum_invariant (cap : DeviceCapability) (desiredBaud desiredSamplePoint : ℚ)
    (timeQuanta propSeg : Int) :
    SYNC_SEG + propSeg + (splitPhase (timeQuanta - (SYNC_SEG + propSeg))).1 +
        (splitPhase (timeQuanta - (SYNC_SEG + propSeg))).2 = timeQuanta ∧
    ((find_best_can_timing_solution cap desiredBaud desiredSamplePoint).solutionFound = true →
      ∃ pseg1 pseg2,
        (find_best_can_timing_solution cap desiredBaud desiredSamplePoint).pseg1 = some pseg1 ∧
        (find_best_can_timing_solution cap desiredBaud desiredSamplePoint).pseg2 = some pseg2 ∧
        timeQuantaOf cap desiredBaud
            (find_best_can_timing_solution cap desiredBaud desiredSamplePoint).prescaler =
          some (1 + (find_best_can_timing_solution cap desiredBaud desiredSamplePoint).propSeg +
            pseg1 + pseg2)) := by
  refine ⟨segments_sum timeQuanta propSeg, fun hfound => ?_⟩
  obtain ⟨p, tq, ps, c, he, hc, hrec⟩ := find_best_found_at cap desiredBaud desiredSamplePoint hfound
  obtain ⟨-, rfl⟩ := (candidate_eq_some _ _ _ _ _ _ _).1 hc
  rw [hrec]
  refine ⟨_, _, rfl, rfl, ?_⟩
  have := segments_sum tq ps
  unfold SYNC_SEG at this
  show timeQuantaOf cap desiredBaud p = some (1 + ps + phaseSeg1Of tq ps + phaseSeg2Of tq ps)
  rw [this]
  exact he.2.2.1

set_option maxRecDepth 100000 in
/-- C4 at `smallCapability`, with a negative odd remainder in the split
(`timeQuanta = 3`, `propSeg = 7`). -/
theorem segment_sum_invariant_witness :
    (find_best_can_timing_solution smallCapability 1 90).solutionFound = true ∧
    SYNC_SEG + 7 + (splitPhase (3 - (SYNC_SEG + 7))).1 + (splitPhase (3 - (SYNC_SEG + 7))).2 = 3 ∧
    ∃ pseg1 pseg2,
      (find_best_can_timing_solution smallCapability 1 90).pseg1 = some pseg1 ∧
      (find_best_can_timing_solution smallCapability 1 90).pseg2 = some pseg2 ∧
      timeQuantaOf smallCapability 1 (find_best_can_timing_solution smallCapability 1 90).prescaler =
        some (1 + (find_best_can_timing_solution smallCapability 1 90).propSeg + pseg1 + pseg2) :=
  ⟨by decide!, (segment_sum_invariant smallCapability 1 90 3 7).1,
    (segment_sum_invariant smallCapability 1 90 3 7).2 (by decide!)⟩

/-- C5. Not-found is reported exactly when nothing is feasible: on well-formed
input `solutionFound = false` holds if and only if no enumerated
`(prescaler, propSeg)` pair passes the TQ window check, the TSeg1 and TSeg2
range checks and `oscillatorTolerance >= 0`; a not-found record is the
untouched initial one (`baudRate` 0, `baudError` `Number.MAX_VALUE`,
`samplePointError` 100, `oscillatorTolerance` 0, `prescaler` 0, `propSeg` 0,
`maxSJW` 0); and a found record has `prescaler >= minPS`. -/
theorem not_found_iff_nothing_feasible (cap : DeviceCapability)
    (desiredBaud desiredSamplePoint : ℚ) (wf : WellFormed cap desiredBaud) :
    ((find_best_can_timing_solution cap desiredBaud desiredSamplePoint).solutionFound = false ↔
      ¬ ∃ prescaler timeQuanta propSeg,
        Enumerated cap desiredBaud prescaler timeQuanta propSeg ∧
        cap.minTSeg1 ≤ propSeg + phaseSeg1Of timeQuanta propSeg ∧
        propSeg + phaseSeg1Of timeQuanta propSeg ≤ cap.maxTSeg1 ∧
        cap.minTSeg2 ≤ phaseSeg2Of timeQuanta propSeg ∧
        phaseSeg2Of timeQuanta propSeg ≤ cap.maxTSeg2 ∧
        JSNum.le (fin 0) (oscillatorToleranceOf cap timeQuanta propSeg) = true) ∧
    ((find_best_can_timing_solution cap desiredBaud desiredSamplePoint).solutionFound = false →
      find_best_can_timing_solution cap desiredBaud desiredSamplePoint =
        { solutionFound := false, baudRate := fin 0, baudError := fin MAX_VALUE,
          samplePoint := fin 0, samplePointError := fin 100, oscillatorTolerance := fin 0,
          prescaler := 0, propSeg := 0, pseg1 := none, pseg2 := none, maxSJW := 0 }) ∧
    ((find_best_can_timing_solution cap desiredBaud desiredSamplePoint).solutionFound = true →
      cap.minPS ≤ (find_best_can_timing_solution cap desiredBaud desiredSamplePoint).prescaler ∧
      1 ≤ (find_best_can_timing_solution cap desiredBaud desiredSamplePoint).prescaler) := by
  refine ⟨⟨fun hnot => ?_, fun hnone => ?_⟩, fun hnot => ?_, fun hfound => ?_⟩
  · rintro ⟨p, tq, ps, he, h1, h2, h3, h4, h5⟩
    have := (find_best_at_least desiredSamplePoint wf he
      (candidate_of_checks cap desiredBaud desiredSamplePoint p tq ps h1 h2 h3 h4
        (JSNum.not_lt_zero_of_le h5))).1
    rw [hnot] at this
    exact absurd this (by decide)
  · rw [← Bool.not_eq_true]
    intro hfound
    obtain ⟨p, tq, ps, c, he, hc, -⟩ :=
      find_best_found_at cap desiredBaud desiredSamplePoint hfound
    obtain ⟨⟨h1, h2, h3, h4, h5⟩, -⟩ := (candidate_eq_some _ _ _ _ _ _ _).1 hc
    obtain ⟨-, hPS, -, hProp, hT1, hT2, -, -, -⟩ := wf
    obtain ⟨-, htq, hps⟩ := enumerated_bounds hPS hProp hT1 hT2 he
    rw [oscillatorToleranceOf_eq _ _ _ htq hps] at h5
    refine hnone ⟨p, tq, ps, he, h1, h2, h3, h4, ?_⟩
    rw [oscillatorToleranceOf_eq _ _ _ htq hps]
    exact JSNum.le_zero_fin_of_not_lt h5
  · exact find_best_of_not_found cap desiredBaud desiredSamplePoint hnot
  · obtain ⟨p, tq, ps, c, he, hc, hrec⟩ :=
      find_best_found_at cap desiredBaud desiredSamplePoint hfound
    obtain ⟨hcp, -⟩ := candidate_prescaler_propSeg hc
    rw [hrec]
    show cap.minPS ≤ c.prescaler ∧ 1 ≤ c.prescaler
    have := he.1
    have := wf.2.1
    omega

set_option maxRecDepth 100000 in
/-- C5 at `smallCapability`. -/
theorem not_found_iff_nothing_feasible_witness :
    WellFormed smallCapability 1 ∧
    (find_best_can_timing_solution smallCapability 1 90).solutionFound = true ∧
    smallCapability.minPS ≤ (find_best_can_timing_solution smallCapability 1 90).prescaler ∧
    1 ≤ (find_best_can_timing_solution smallCapability 1 90).prescaler :=
  ⟨by decide!, by decide!,
    (not_found_iff_nothing_feasible smallCapability 1 90 (by decide!)).2.2 (by decide!)⟩

/-- C6. No-solution case: when `maxPS < minPS` (whatever the other fields and
the targets), and also when `round(clock / prescaler / desiredBaud)` lies
outside `[max(1 + minTSeg1 + minTSeg2, minTQ), min(1 + maxTSeg1 + maxTSeg2, maxTQ)]`
for every integer prescaler in `[minPS, maxPS]`, the function returns
`solutionFound = false`. -/
theorem no_solution_case (cap : DeviceCapability) (desiredBaud desiredSamplePoint : ℚ)
    (h : cap.maxPS < cap.minPS ∨
      ∀ prescaler, cap.minPS ≤ prescaler → prescaler ≤ cap.maxPS →
        ∀ timeQuanta, timeQuantaOf cap desiredBaud prescaler = some timeQuanta →
          timeQuanta < max (1 + cap.minTSeg1 + cap.minTSeg2) cap.minTQ ∨
          min (1 + cap.maxTSeg1 + cap.maxTSeg2) cap.maxTQ < timeQuanta) :
    (find_best_can_timing_solution cap desiredBaud desiredSamplePoint).solutionFound = false := by
  rw [← Bool.not_eq_true]
  intro hfound
  obtain ⟨p, tq, ps, c, he, -, -⟩ := find_best_found_at cap desiredBaud desiredSamplePoint hfound
  obtain ⟨e1, e2, e3, e4, e5, -, -⟩ := he
  unfold windowMinTQ SYNC_SEG at e4
  unfold windowMaxTQ SYNC_SEG at e5
  rcases h with h | h
  · omega
  · rcases h p e1 e2 tq e3 with h | h
    · exact absurd e4 (not_le.2 h)
    · exact absurd e5 (not_le.2 h)

/-- C6 at a capability with `maxPS < minPS`. -/
theorem no_solution_case_witness :
    emptyCapability.maxPS < emptyCapability.minPS ∧
    (find_best_can_timing_solution emptyCapability 1 90).solutionFound = false :=
  ⟨by decide, no_solution_case emptyCapability 1 90 (Or.inl (by decide))⟩

/-- C7. Full ties resolve to the lowest prescaler: on well-formed input with a
found solution, for every enumerated, non-rejected candidate whose `baudError`,
`samplePointError` and `oscillatorTolerance` all equal those of the returned
solution, the returned prescaler is at most the candidate's, and the returned
`timeQuanta` is at least the candidate's.  In the reference run the candidates
at prescalers 20, 10, 5, 4, 2 and 1 all have `baudError` 0, `samplePointError`
0 and `oscillatorTolerance` 1/206, and the returned solution is prescaler 1,
`propSeg` 119, `pseg1` 20, `pseg2` 20, `maxSJW` 20. -/
theorem full_tie_lowest_prescaler :
    (∀ (cap : DeviceCapability) (desiredBaud desiredSamplePoint : ℚ),
      WellFormed cap desiredBaud →
      (find_best_can_timing_solution cap desiredBaud desiredSamplePoint).solutionFound = true →
      ∀ (prescaler timeQuanta propSeg : Int) (c : Candidate),
        Enumerated cap desiredBaud prescaler timeQuanta propSeg →
        candidate cap desiredBaud desiredSamplePoint prescaler timeQuanta propSeg = some c →
        c.baudError =
          (find_best_can_timing_solution cap desiredBaud desiredSamplePoint).baudError →
        c.samplePointError =
          (find_best_can_timing_solution cap desiredBaud desiredSamplePoint).samplePointError →
        c.oscillatorTolerance =
          (find_best_can_timing_solution cap desiredBaud desiredSamplePoint).oscillatorTolerance →
        (find_best_can_timing_solution cap desiredBaud desiredSamplePoint).prescaler ≤ prescaler ∧
        ∃ returnedTimeQuanta,
          timeQuantaOf cap desiredBaud
            (find_best_can_timing_solution cap desiredBaud desiredSamplePoint).prescaler =
              some returnedTimeQuanta ∧
          timeQuanta ≤ returnedTimeQuanta) ∧
    (∀ pair ∈ [((20 : Int), (8 : Int), (5 : Int)), (10, 16, 11), (5, 32, 23), (4, 40, 29),
        (2, 80, 59), (1, 160, 119)],
      Enumerated exampleCapability 500000 pair.1 pair.2.1 pair.2.2 ∧
      (candidate exampleCapability 500000 (175 / 2) pair.1 pair.2.1 pair.2.2).map
          (fun c => (c.baudError, c.samplePointError, c.oscillatorTolerance)) =
        some (fin 0, fin 0, fin (1 / 206))) ∧
    (find_best_can_timing_solution exampleCapability 500000 (175 / 2)).prescaler = 1 ∧
    (find_best_can_timing_solution exampleCapability 500000 (175 / 2)).propSeg = 119 ∧
    (find_best_can_timing_solution exampleCapability 500000 (175 / 2)).pseg1 = some 20 ∧
    (find_best_can_timing_solution exampleCapability 500000 (175 / 2)).pseg2 = some 20 ∧
    (find_best_can_timing_solution exampleCapability 500000 (175 / 2)).maxSJW = 20 := by
  refine ⟨?_, by decide!, ?_⟩
  · intro cap desiredBaud desiredSamplePoint wf _ prescaler timeQuanta propSeg c he hc hb hs ho
    have hmem : c ∈ allCandidates cap desiredBaud desiredSamplePoint :=
      (mem_allCandidates _ _ _ _).2 ⟨_, _, _, he, hc⟩
    obtain ⟨c0, hc0, hrec, -, htie⟩ := find_best_of_mem desiredSamplePoint wf hmem
    rw [hrec] at hb hs ho ⊢
    have hkey : c0.key = c.key := key_eq_of_fields hb.symm hs.symm ho.symm
    obtain ⟨hcp, -⟩ := candidate_prescaler_propSeg hc
    have hle : c0.prescaler ≤ prescaler := hcp ▸ (htie hkey).1
    refine ⟨hle, ?_⟩
    obtain ⟨p0, tq0, ps0, he0, hcand0⟩ := (mem_allCandidates _ _ _ _).1 hc0
    obtain ⟨hcp0, -⟩ := candidate_prescaler_propSeg hcand0
    obtain ⟨hclk, hPS, -, hProp, hT1, hT2, hbaud, -, -⟩ := wf
    obtain ⟨hp0, -, -⟩ := enumerated_bounds hPS hProp hT1 hT2 he0
    refine ⟨tq0, ?_, ?_⟩
    · show timeQuantaOf cap desiredBaud c0.prescaler = some tq0
      rw [hcp0]
      exact he0.2.2.1
    · exact timeQuantaOf_antitone (by omega) hbaud hp0 (by omega) he0.2.2.1 he.2.2.1
  · rw [find_best_example]
    exact ⟨rfl, rfl, rfl, rfl, rfl⟩

set_option maxRecDepth 100000 in
/-- C7 in the reference run, against the tied candidate at prescaler 20. -/
theorem full_tie_lowest_prescaler_witness :
    WellFormed exampleCapability 500000 ∧
    (find_best_can_timing_solution exampleCapability 500000 (175 / 2)).solutionFound = true ∧
    Enumerated exampleCapability 500000 20 8 5 ∧
    candidate exampleCapability 500000 (175 / 2) 20 8 5 = some exampleCandidate20 ∧
    (find_best_can_timing_solution exampleCapability 500000 (175 / 2)).prescaler ≤ 20 ∧
    ∃ returnedTimeQuanta,
      timeQuantaOf exampleCapability 500000
          (find_best_can_timing_solution exampleCapability 500000 (175 / 2)).prescaler =
        some returnedTimeQuanta ∧
      8 ≤ returnedTimeQuanta :=
  ⟨by decide!, by rw [find_best_example], by decide!, by decide!,
    full_tie_lowest_prescaler.1 exampleCapability 500000 (175 / 2) (by decide!)
      (by rw [find_best_example]) 20 8 5 exampleCandidate20 (by decide!) (by decide!)
      (by rw [find_best_example]; rfl) (by rw [find_best_example]; rfl)
      (by rw [find_best_example]; rfl)⟩

/-- C8, as amended.  Monotonicity under a widening that does not lower the cap
of the inner loop: for well-formed capabilities `C` and `C'` with the same
clock where `C'` widens `C` and
`C'.minTSeg1 - C'.minPropSeg + C'.minTSeg2 <= C.minTSeg1 - C.minPropSeg + C.minTSeg2`
(as is the case whenever `minPropSeg` is unchanged), if a solution is found
under `C` then its `(prescaler, propSeg)` is still enumerated and not rejected
under `C'`, a solution is found under `C'`, and the `baudError` returned under
`C'` is at most the one returned under `C`. -/
theorem widening_monotone (C C' : DeviceCapability) (desiredBaud desiredSamplePoint : ℚ)
    (wf : WellFormed C desiredBaud) (wf' : WellFormed C' desiredBaud) (hw : Widens C C')
    (hcap : C'.minTSeg1 - C'.minPropSeg + C'.minTSeg2 ≤ C.minTSeg1 - C.minPropSeg + C.minTSeg2)
    (hfound :
      (find_best_can_timing_solution C desiredBaud desiredSamplePoint).solutionFound = true) :
    (∃ timeQuanta,
      Enumerated C' desiredBaud
        (find_best_can_timing_solution C desiredBaud desiredSamplePoint).prescaler timeQuanta
        (find_best_can_timing_solution C desiredBaud desiredSamplePoint).propSeg ∧
      (candidate C' desiredBaud desiredSamplePoint
        (find_best_can_timing_solution C desiredBaud desiredSamplePoint).prescaler timeQuanta
        (find_best_can_timing_solution C desiredBaud desiredSamplePoint).propSeg).isSome = true) ∧
    (find_best_can_timing_solution C' desiredBaud desiredSamplePoint).solutionFound = true ∧
    JSNum.le (find_best_can_timing_solution C' desiredBaud desiredSamplePoint).baudError
      (find_best_can_timing_solution C desiredBaud desiredSamplePoint).baudError = true := by
  obtain ⟨p, tq, ps, c, he, hc, hrec⟩ := find_best_found_at C desiredBaud desiredSamplePoint hfound
  obtain ⟨⟨h1, h2, h3, h4, h5⟩, hceq⟩ := (candidate_eq_some _ _ _ _ _ _ _).1 hc
  obtain ⟨hp, htq, hps⟩ := enumerated_bounds wf.2.1 wf.2.2.2.1 wf.2.2.2.2.1 wf.2.2.2.2.2.1 he
  obtain ⟨w0, w1, w2, w3, w4, w5, w6, w7, w8, w9, w10, w11⟩ := hw
  obtain ⟨e1, e2, e3, e4, e5, e6, e7⟩ := he
  have he' : Enumerated C' desiredBaud p tq ps := by
    refine ⟨by omega, by omega, ?_, ?_, ?_, by omega, ?_⟩
    · unfold timeQuantaOf at e3 ⊢
      rw [w0]
      exact e3
    · unfold windowMinTQ at e4 ⊢
      omega
    · unfold windowMaxTQ at e5 ⊢
      omega
    · unfold maxPropSegAt at e7 ⊢
      omega
  have h5' : JSNum.lt (oscillatorToleranceOf C' tq ps) (fin 0) = false := by
    rw [oscillatorTolerance_check_iff _ _ _ htq hps] at h5 ⊢
    exact ⟨h5.1, by omega⟩
  have hc' := candidate_of_checks C' desiredBaud desiredSamplePoint p tq ps
    (by omega) (by omega) (by omega) (by omega) h5'
  obtain ⟨hf', hle', -⟩ := find_best_at_least desiredSamplePoint wf' he' hc'
  have hb : baudErrorOf C' desiredBaud p tq = baudErrorOf C desiredBaud p tq := by
    unfold baudErrorOf calculatedBaudOf
    rw [w0]
  rw [hrec, hceq]
  refine ⟨⟨tq, he', ?_⟩, hf', ?_⟩
  · show (candidate C' desiredBaud desiredSamplePoint p tq ps).isSome = true
    rw [hc']
    rfl
  · show JSNum.le (find_best_can_timing_solution C' desiredBaud desiredSamplePoint).baudError
      (baudErrorOf C desiredBaud p tq) = true
    rw [← hb]
    exact hle'

set_option maxRecDepth 100000 in
/-- C8 as amended, for `smallCapability` and the same capability with `maxTQ`
raised. -/
theorem widening_monotone_witness :
    WellFormed smallCapability 1 ∧ WellFormed smallCapabilityWide 1 ∧
    Widens smallCapability smallCapabilityWide ∧
    (find_best_can_timing_solution smallCapability 1 90).solutionFound = true ∧
    (∃ timeQuanta,
      Enumerated smallCapabilityWide 1
        (find_best_can_timing_solution smallCapability 1 90).prescaler timeQuanta
        (find_best_can_timing_solution smallCapability 1 90).propSeg ∧
      (candidate smallCapabilityWide 1 90
        (find_best_can_timing_solution smallCapability 1 90).prescaler timeQuanta
        (find_best_can_timing_solution smallCapability 1 90).propSeg).isSome = true) ∧
    (find_best_can_timing_solution smallCapabilityWide 1 90).solutionFound = true ∧
    JSNum.le (find_best_can_timing_solution smallCapabilityWide 1 90).baudError
      (find_best_can_timing_solution smallCapability 1 90).baudError = true :=
  ⟨by decide!, by decide!, by decide!, by decide!,
    widening_monotone smallCapability smallCapabilityWide 1 90 (by decide!) (by decide!)
      (by decide!) (by decide!) (by decide!)⟩

set_option maxRecDepth 100000 in
/-- C8 fails as stated.  Both `narrowCapability` and `widenedCapability` are
well-formed and the second widens the first (only `minPropSeg` is lowered, from
5 to 0).  With `desiredBaud = 1` a solution is found under the first, at
`prescaler = 1`, `propSeg = 5`; under the second the cap of line 38 drops
from 5 to 4, that pair is no longer enumerated, every enumerated `propSeg`
fails the TSeg2 range check, no solution is found, and the returned
`baudError` (`Number.MAX_VALUE`) is not at most the one returned before. -/
theorem widening_minPropSeg_loses_solution :
    WellFormed narrowCapability 1 ∧ WellFormed widenedCapability 1 ∧
    Widens narrowCapability widenedCapability ∧
    (find_best_can_timing_solution narrowCapability 1 90).solutionFound = true ∧
    (find_best_can_timing_solution narrowCapability 1 90).prescaler = 1 ∧
    (find_best_can_timing_solution narrowCapability 1 90).propSeg = 5 ∧
    timeQuantaOf widenedCapability 1 1 = some 8 ∧
    maxPropSegAt narrowCapability 8 = 5 ∧ maxPropSegAt widenedCapability 8 = 4 ∧
    ¬ Enumerated widenedCapability 1 1 8 5 ∧
    (find_best_can_timing_solution widenedCapability 1 90).solutionFound = false ∧
    JSNum.le (find_best_can_timing_solution widenedCapability 1 90).baudError
      (find_best_can_timing_solution narrowCapability 1 90).baudError = false := by
  decide!

/-- C9. Reference scenario: for the capability of the example (clock 80000000,
prescaler 1..512, TQ 4..385, `maxPropSeg` 382) with `desiredBaud = 500000` and
`desiredSamplePoint = 87.5` the function returns `solutionFound = true` with
`baudRate` exactly 500000 (`baudError` 0), `samplePoint` 87.5
(`samplePointError` 0) and `oscillatorTolerance > 0`; the same holds with
`maxPropSeg = 381`. -/
theorem reference_scenario :
    ((find_best_can_timing_solution exampleCapability 500000 (175 / 2)).solutionFound = true ∧
      (find_best_can_timing_solution exampleCapability 500000 (175 / 2)).baudRate = fin 500000 ∧
      (find_best_can_timing_solution exampleCapability 500000 (175 / 2)).baudError = fin 0 ∧
      (find_best_can_timing_solution exampleCapability 500000 (175 / 2)).samplePoint =
        fin (175 / 2) ∧
      (find_best_can_timing_solution exampleCapability 500000 (175 / 2)).samplePointError =
        fin 0 ∧
      JSNum.lt (fin 0)
        (find_best_can_timing_solution exampleCapability 500000 (175 / 2)).oscillatorTolerance =
          true) ∧
    ((find_best_can_timing_solution exampleCapability381 500000 (175 / 2)).solutionFound = true ∧
      (find_best_can_timing_solution exampleCapability381 500000 (175 / 2)).baudRate =
        fin 500000 ∧
      (find_best_can_timing_solution exampleCapability381 500000 (175 / 2)).baudError = fin 0 ∧
      (find_best_can_timing_solution exampleCapability381 500000 (175 / 2)).samplePoint =
        fin (175 / 2) ∧
      (find_best_can_timing_solution exampleCapability381 500000 (175 / 2)).samplePointError =
        fin 0 ∧
      JSNum.lt (fin 0)
        (find_best_can_timing_solution exampleCapability381 500000
          (175 / 2)).oscillatorTolerance = true) ∧
    exampleCapability.maxPropSeg = 382 := by
  rw [find_best_example, find_best_example381]
  exact ⟨⟨rfl, rfl, rfl, rfl, rfl, by decide!⟩, ⟨rfl, rfl, rfl, rfl, rfl, by decide!⟩, by decide⟩

/-- C10. No division by zero on well-formed input: with `minPS >= 1`,
`minPropSeg >= 0`, `minTSeg1 >= 0`, `minTSeg2 >= 0` and `desiredBaud > 0`,
every divisor met by the function is positive: `prescaler`, `desiredBaud`
(line 33, whose rounded quotient is therefore finite), and, once `timeQuanta`
has passed the window test and so is at least 1, `prescaler * timeQuanta`
(line 36), `timeQuanta` (line 72), `20 * timeQuanta` (line 65) and
`2 * (13 * timeQuanta - phaseSeg2)` (line 64) for every `propSeg` of the inner
loop; and every number in the returned record is finite. -/
theorem divisors_positive (cap : DeviceCapability) (desiredBaud desiredSamplePoint : ℚ)
    (hPS : 1 ≤ cap.minPS) (hProp : 0 ≤ cap.minPropSeg) (h1 : 0 ≤ cap.minTSeg1)
    (h2 : 0 ≤ cap.minTSeg2) (hb : 0 < desiredBaud) :
    (∀ prescaler, cap.minPS ≤ prescaler → prescaler ≤ cap.maxPS →
      0 < prescaler ∧ 0 < desiredBaud ∧
      (timeQuantaOf cap desiredBaud prescaler).isSome = true ∧
      ∀ timeQuanta, timeQuantaOf cap desiredBaud prescaler = some timeQuanta →
        windowMinTQ cap ≤ timeQuanta → timeQuanta ≤ windowMaxTQ cap →
        0 < prescaler * timeQuanta ∧ 0 < timeQuanta ∧ 0 < 20 * timeQuanta ∧
        ∀ propSeg, cap.minPropSeg ≤ propSeg → propSeg ≤ maxPropSegAt cap timeQuanta →
          0 < 2 * ((13 * timeQuanta) - phaseSeg2Of timeQuanta propSeg)) ∧
    (find_best_can_timing_solution cap desiredBaud desiredSamplePoint).baudRate.isFinite = true ∧
    (find_best_can_timing_solution cap desiredBaud desiredSamplePoint).baudError.isFinite = true ∧
    (find_best_can_timing_solution cap desiredBaud desiredSamplePoint).samplePoint.isFinite =
      true ∧
    (find_best_can_timing_solution cap desiredBaud desiredSamplePoint).samplePointError.isFinite =
      true ∧
    (find_best_can_timing_solution cap desiredBaud
      desiredSamplePoint).oscillatorTolerance.isFinite = true := by
  constructor
  · intro p hp1 hp2
    refine ⟨by omega, hb, ?_, ?_⟩
    · rw [timeQuantaOf_eq _ _ _ (by omega) hb.ne']
      rfl
    · intro tq htq hw1 hw2
      have htq1 : 1 ≤ tq := by
        unfold windowMinTQ SYNC_SEG at hw1
        omega
      refine ⟨Int.mul_pos (by omega) (by omega), by omega, by omega, ?_⟩
      intro ps hps1 _
      exact df1_divisor_pos tq ps htq1 (by omega)
  · rcases find_best_cases cap desiredBaud desiredSamplePoint with h0 | ⟨c, hc, hrec⟩
    · rw [h0]
      exact ⟨rfl, rfl, rfl, rfl, rfl⟩
    · obtain ⟨p, tq, ps, he, hcand⟩ := (mem_allCandidates _ _ _ _).1 hc
      obtain ⟨f1, f2, f3, f4, f5⟩ := candidate_fields hPS hProp h1 h2 he hcand
      rw [hrec]
      unfold record
      dsimp only
      rw [f1, f2, f3, f4, f5]
      exact ⟨rfl, rfl, rfl, rfl, rfl⟩

set_option maxRecDepth 100000 in
/-- C10 at `smallCapability`. -/
theorem divisors_positive_witness :
    (1 ≤ smallCapability.minPS ∧ 0 ≤ smallCapability.minPropSeg ∧
      0 ≤ smallCapability.minTSeg1 ∧ 0 ≤ smallCapability.minTSeg2 ∧ (0 : ℚ) < 1) ∧
    (find_best_can_timing_solution smallCapability 1 90).baudRate.isFinite = true ∧
    (find_best_can_timing_solution smallCapability 1 90).baudError.isFinite = true ∧
    (find_best_can_timing_solution smallCapability 1 90).samplePoint.isFinite = true ∧
    (find_best_can_timing_solution smallCapability 1 90).samplePointError.isFinite = true ∧
    (find_best_can_timing_solution smallCapability 1 90).oscillatorTolerance.isFinite = true :=
  ⟨by decide!,
    (divisors_positive smallCapability 1 90 (by decide) (by decide) (by decide) (by decide)
      (by decide!)).2⟩

/-! ## Facts that hold on every input -/

theorem JSNum.abs_ne_ninf (a : JSNum) : JSNum.abs a ≠ ninf := by
  cases a <;> simp [JSNum.abs]

theorem JSNum.le_of_lt {a b : JSNum} (h : JSNum.lt a b = true) : JSNum.le a b = true := by
  cases a <;> cases b <;> simp_all [JSNum.lt, JSNum.le]
  exact h.le

/-- A number that is `<=` a finite one and is not `-Infinity` is finite. -/
theorem JSNum.fin_of_le_fin {a : JSNum} {y : ℚ} (h : JSNum.le a (fin y) = true)
    (hn : a ≠ ninf) : ∃ x, a = fin x ∧ x ≤ y := by
  cases a with
  | fin x => exact ⟨x, rfl, by simpa [JSNum.le] using h⟩
  | pinf => simp [JSNum.le] at h
  | ninf => exact absurd rfl hn
  | nan => simp [JSNum.le] at h

theorem update_of_replaces {r : Result} {c : Candidate} (h : replaces r c = true) :
    update r c = record c := by
  unfold update
  rw [if_pos h]

theorem update_of_not_replaces {r : Result} {c : Candidate} (h : ¬ replaces r c = true) :
    update r c = r := by
  unfold update
  rw [if_neg h]

/-- Each of the four clauses of lines 75-78 requires
`baudError <= result.baudError`. -/
theorem replaces_baudError_le {r : Result} {c : Candidate} (h : replaces r c = true) :
    JSNum.le c.baudError r.baudError = true := by
  unfold replaces at h
  simp only [Bool.or_eq_true, Bool.and_eq_true] at h
  rcases h with ((h | h) | h) | h
  · exact JSNum.le_of_lt h
  · exact h.1
  · exact h.1.1
  · exact h.1.1.1

/-- Clause 1: a candidate with a strictly smaller baud error replaces. -/
theorem replaces_of_baudError_lt {r : Result} {c : Candidate}
    (h : JSNum.lt c.baudError r.baudError = true) : replaces r c = true := by
  unfold replaces
  simp [h]

theorem baudError_ne_ninf_of_mem {cap : DeviceCapability} {desiredBaud desiredSamplePoint : ℚ}
    {c : Candidate} (hc : c ∈ allCandidates cap desiredBaud desiredSamplePoint) :
    c.baudError ≠ ninf := by
  obtain ⟨p, tq, ps, -, hcand⟩ := (mem_allCandidates _ _ _ _).1 hc
  obtain ⟨-, rfl⟩ := (candidate_eq_some _ _ _ _ _ _ _).1 hcand
  exact JSNum.abs_ne_ninf _

/-- Whatever the candidates, the recorded baud error is finite, at most
`Number.MAX_VALUE`, and at most the baud error of every candidate seen whose
baud error is finite. -/
theorem foldl_update_baudError (l : List Candidate) (hl : ∀ c ∈ l, c.baudError ≠ ninf) :
    ∃ rb, (l.foldl update initialResult).baudError = fin rb ∧ rb ≤ MAX_VALUE ∧
      ∀ c ∈ l, ∀ b, c.baudError = fin b → rb ≤ b := by
  induction l using List.reverseRecOn with
  | nil => exact ⟨MAX_VALUE, rfl, le_refl _, fun c hc => absurd hc (List.not_mem_nil _)⟩
  | append_singleton l a ih =>
    obtain ⟨rb, hrb, hmax, hall⟩ := ih (fun c hc => hl c (List.mem_append_left _ hc))
    rw [List.foldl_append, List.foldl_cons, List.foldl_nil]
    by_cases hrep : replaces (l.foldl update initialResult) a = true
    · rw [update_of_replaces hrep]
      have hle := replaces_baudError_le hrep
      rw [hrb] at hle
      obtain ⟨b, hb, hbr⟩ := JSNum.fin_of_le_fin hle (hl a (by simp))
      refine ⟨b, hb, le_trans hbr hmax, ?_⟩
      intro c hc bc hbc
      rcases List.mem_append.1 hc with hc | hc
      · exact le_trans hbr (hall c hc bc hbc)
      · simp only [List.mem_singleton] at hc
        subst hc
        rw [hb] at hbc
        exact le_of_eq (JSNum.fin.inj hbc)
    · rw [update_of_not_replaces hrep]
      refine ⟨rb, hrb, hmax, ?_⟩
      intro c hc bc hbc
      rcases List.mem_append.1 hc with hc | hc
      · exact hall c hc bc hbc
      · simp only [List.mem_singleton] at hc
        subst hc
        by_contra hlt
        apply hrep
        apply replaces_of_baudError_lt
        rw [hbc, hrb]
        simpa [JSNum.lt] using hlt

/-- A solution is found exactly when some candidate replaces the initial
record. -/
theorem foldl_update_found (l : List Candidate) :
    (l.foldl update initialResult).solutionFound = true ↔
      ∃ c ∈ l, replaces initialResult c = true := by
  induction l using List.reverseRecOn with
  | nil => simp [initialResult]
  | append_singleton l a ih =>
    rw [List.foldl_append, List.foldl_cons, List.foldl_nil]
    rcases foldl_update_cases l initialResult with h0 | ⟨c0, hc0, hrec⟩
    · rw [h0] at ih ⊢
      have hno : ¬ ∃ c ∈ l, replaces initialResult c = true := fun h => by
        have := ih.2 h
        simp [initialResult] at this
      by_cases hrep : replaces initialResult a = true
      · rw [update_of_replaces hrep]
        exact ⟨fun _ => ⟨a, by simp, hrep⟩, fun _ => rfl⟩
      · rw [update_of_not_replaces hrep]
        constructor
        · intro h
          simp [initialResult] at h
        · rintro ⟨c, hc, hc'⟩
          rcases List.mem_append.1 hc with hc | hc
          · exact absurd ⟨c, hc, hc'⟩ hno
          · simp only [List.mem_singleton] at hc
            subst hc
            exact absurd hc' hrep
    · have hfound : (l.foldl update initialResult).solutionFound = true := by
        rw [hrec]
        rfl
      obtain ⟨c, hc, hc'⟩ := ih.1 hfound
      refine ⟨fun _ => ⟨c, List.mem_append_left _ hc, hc'⟩, fun _ => ?_⟩
      rcases update_cases (l.foldl update initialResult) a with h | h
      · rw [h]
        exact hfound
      · rw [h]
        rfl

theorem JSNum.div_ofInt_zero (a : Int) :
    JSNum.div (ofInt a) (ofInt 0) = if 0 < a then pinf else if a < 0 then ninf else nan := by
  unfold JSNum.div ofInt
  simp

/-- With `timeQuanta` finite and not zero, a candidate that passes the test of
line 67 has a finite, non-negative oscillator tolerance; when moreover
`timeQuanta >= 1`, its `phaseSeg1` and `maxSJW` are non-negative. -/
theorem oscillatorTolerance_check (cap : DeviceCapability) (timeQuanta propSeg : Int)
    (htq : timeQuanta ≠ 0)
    (h : JSNum.lt (oscillatorToleranceOf cap timeQuanta propSeg) (fin 0) = false) :
    ∃ x, oscillatorToleranceOf cap timeQuanta propSeg = fin x ∧ 0 ≤ x ∧
      (1 ≤ timeQuanta →
        0 ≤ phaseSeg1Of timeQuanta propSeg ∧ 0 ≤ maxSJWOf cap timeQuanta propSeg) := by
  have e1 := phaseSeg1Of_eq timeQuanta propSeg
  have e2 := phaseSeg2Of_eq timeQuanta propSeg
  unfold oscillatorToleranceOf at h ⊢
  rw [df2Of_eq _ _ _ (by omega)] at h ⊢
  by_cases hD : 2 * ((13 * timeQuanta) - phaseSeg2Of timeQuanta propSeg) = 0
  · have hdf : df1Of timeQuanta propSeg =
        if 0 < Min.min (phaseSeg1Of timeQuanta propSeg) (phaseSeg2Of timeQuanta propSeg)
        then pinf
        else if Min.min (phaseSeg1Of timeQuanta propSeg) (phaseSeg2Of timeQuanta propSeg) < 0
        then ninf else nan := by
      unfold df1Of
      rw [hD, JSNum.div_ofInt_zero]
    rw [hdf] at h ⊢
    by_cases hm : 0 < Min.min (phaseSeg1Of timeQuanta propSeg) (phaseSeg2Of timeQuanta propSeg)
    · rw [if_pos hm] at h ⊢
      have hmin : ∀ y : ℚ, JSNum.min pinf (fin y) = fin y := fun y => by
        simp [JSNum.min, JSNum.lt]
      rw [hmin] at h ⊢
      have hx : (0 : ℚ) ≤ (maxSJWOf cap timeQuanta propSeg : ℚ) / ((20 * timeQuanta : Int) : ℚ) := by
        simpa [JSNum.lt] using h
      refine ⟨_, rfl, hx, fun h1 => ⟨by omega, ?_⟩⟩
      have hT : (0 : ℚ) < ((20 * timeQuanta : Int) : ℚ) := Int.cast_pos.2 (by omega)
      rw [div_nonneg_iff] at hx
      rcases hx with hx | hx
      · exact Int.cast_nonneg.1 hx.1
      · exact absurd hx.2 (not_le.2 hT)
    · rw [if_neg hm] at h
      have hneg : Min.min (phaseSeg1Of timeQuanta propSeg) (phaseSeg2Of timeQuanta propSeg) < 0 := by
        omega
      rw [if_pos hneg] at h
      simp [JSNum.min, JSNum.lt] at h
  · rw [df1Of_eq _ _ hD, JSNum.min_fin] at h ⊢
    have hx : (0 : ℚ) ≤ Min.min
        (((Min.min (phaseSeg1Of timeQuanta propSeg) (phaseSeg2Of timeQuanta propSeg) : Int) : ℚ) /
          ((2 * ((13 * timeQuanta) - phaseSeg2Of timeQuanta propSeg) : Int) : ℚ))
        ((maxSJWOf cap timeQuanta propSeg : ℚ) / ((20 * timeQuanta : Int) : ℚ)) := by
      simpa [JSNum.lt] using h
    refine ⟨_, rfl, hx, fun h1 => ?_⟩
    rw [le_min_iff] at hx
    obtain ⟨hx1, hx2⟩ := hx
    have hT : (0 : ℚ) < ((20 * timeQuanta : Int) : ℚ) := Int.cast_pos.2 (by omega)
    constructor
    · rw [div_nonneg_iff] at hx1
      rcases hx1 with ⟨ha, hb⟩ | ⟨ha, hb⟩
      · have ha' := Int.cast_nonneg.1 ha
        omega
      · have ha' : Min.min (phaseSeg1Of timeQuanta propSeg) (phaseSeg2Of timeQuanta propSeg) ≤ 0 := by
          exact_mod_cast ha
        have hb' : 2 * ((13 * timeQuanta) - phaseSeg2Of timeQuanta propSeg) ≤ 0 := by
          exact_mod_cast hb
        omega
    · rw [div_nonneg_iff] at hx2
      rcases hx2 with hx2 | hx2
      · exact Int.cast_nonneg.1 hx2.1
      · exact absurd hx2.2 (not_le.2 hT)

/-- A candidate whose baud error is finite was computed at a non-zero
`prescaler * timeQuanta`. -/
theorem mul_ne_zero_of_baudError_fin {cap : DeviceCapability} {desiredBaud : ℚ}
    {prescaler timeQuanta : Int} {b : ℚ}
    (h : baudErrorOf cap desiredBaud prescaler timeQuanta = fin b) :
    prescaler * timeQuanta ≠ 0 := by
  intro h0
  unfold baudErrorOf calculatedBaudOf at h
  rw [h0, JSNum.div_ofInt_zero] at h
  split at h
  · simp [JSNum.sub, JSNum.abs] at h
  · split at h
    · simp [JSNum.sub, JSNum.abs] at h
    · simp [JSNum.sub, JSNum.abs] at h

/-- C11. The returned record is internally consistent: on well-formed input
with a found solution, writing `tq = 1 + propSeg + pseg1 + pseg2`, the record
has `tq = round(clock / prescaler / desiredBaud)`,
`baudRate = clock / (prescaler * tq)`, `baudError = |baudRate - desiredBaud|`,
`pseg1 = floor((tq - 1 - propSeg) / 2)`,
`samplePoint = 100 * (1 + propSeg + pseg1) / tq`,
`samplePointError = |desiredSamplePoint - samplePoint|`,
`maxSJW = min(pseg1, pseg2, capability.maxSJW)` and
`oscillatorTolerance = min(min(pseg1, pseg2) / (2 * (13 * tq - pseg2)), maxSJW / (20 * tq))`:
all fields come from one candidate. -/
theorem returned_record_consistent (cap : DeviceCapability)
    (desiredBaud desiredSamplePoint : ℚ) (wf : WellFormed cap desiredBaud)
    (hfound :
      (find_best_can_timing_solution cap desiredBaud desiredSamplePoint).solutionFound = true) :
    ∃ (pseg1 pseg2 tq : Int) (baudRate samplePoint : ℚ),
      (find_best_can_timing_solution cap desiredBaud desiredSamplePoint).pseg1 = some pseg1 ∧
      (find_best_can_timing_solution cap desiredBaud desiredSamplePoint).pseg2 = some pseg2 ∧
      tq = 1 + (find_best_can_timing_solution cap desiredBaud desiredSamplePoint).propSeg +
        pseg1 + pseg2 ∧
      tq = ⌊(cap.clock : ℚ) /
          ((find_best_can_timing_solution cap desiredBaud desiredSamplePoint).prescaler : ℚ) /
          desiredBaud + 1 / 2⌋ ∧
      (find_best_can_timing_solution cap desiredBaud desiredSamplePoint).baudRate =
        fin baudRate ∧
      baudRate = (cap.clock : ℚ) /
        (((find_best_can_timing_solution cap desiredBaud desiredSamplePoint).prescaler : ℚ) *
          (tq : ℚ)) ∧
      (find_best_can_timing_solution cap desiredBaud desiredSamplePoint).baudError =
        fin |baudRate - desiredBaud| ∧
      pseg1 = ⌊(((tq - 1 -
        (find_best_can_timing_solution cap desiredBaud desiredSamplePoint).propSeg : Int) : ℚ)) /
          2⌋ ∧
      (find_best_can_timing_solution cap desiredBaud desiredSamplePoint).samplePoint =
        fin samplePoint ∧
      samplePoint = 100 *
        (1 + ((find_best_can_timing_solution cap desiredBaud desiredSamplePoint).propSeg : ℚ) +
          (pseg1 : ℚ)) / (tq : ℚ) ∧
      (find_best_can_timing_solution cap desiredBaud desiredSamplePoint).samplePointError =
        fin |desiredSamplePoint - samplePoint| ∧
      (find_best_can_timing_solution cap desiredBaud desiredSamplePoint).maxSJW =
        Min.min (Min.min pseg1 pseg2) cap.maxSJW ∧
      (find_best_can_timing_solution cap desiredBaud desiredSamplePoint).oscillatorTolerance =
        fin (Min.min
          (((Min.min pseg1 pseg2 : Int) : ℚ) / ((2 * ((13 * tq) - pseg2) : Int) : ℚ))
          (((find_best_can_timing_solution cap desiredBaud desiredSamplePoint).maxSJW : ℚ) /
            ((20 * tq : Int) : ℚ))) := by
  obtain ⟨p, tq, ps, c, he, hc, hrec⟩ := find_best_found_at cap desiredBaud desiredSamplePoint hfound
  obtain ⟨-, hPS, -, hProp, hT1, hT2, hb, -, -⟩ := wf
  obtain ⟨hp, htq, hps⟩ := enumerated_bounds hPS hProp hT1 hT2 he
  obtain ⟨f1, f2, f3, f4, f5⟩ := candidate_fields hPS hProp hT1 hT2 he hc
  obtain ⟨-, hceq⟩ := (candidate_eq_some _ _ _ _ _ _ _).1 hc
  have hsum := segments_sum tq ps
  unfold SYNC_SEG at hsum
  have hround := he.2.2.1
  rw [timeQuantaOf_eq _ _ _ (by omega) hb.ne'] at hround
  have hcp : c.prescaler = p := by rw [hceq]
  have hcps : c.propSeg = ps := by rw [hceq]
  have hc1 : c.phaseSeg1 = phaseSeg1Of tq ps := by rw [hceq]
  have hc2 : c.phaseSeg2 = phaseSeg2Of tq ps := by rw [hceq]
  have hcs : c.maxSJW = maxSJWOf cap tq ps := by rw [hceq]
  rw [hrec]
  refine ⟨phaseSeg1Of tq ps, phaseSeg2Of tq ps, tq,
    (cap.clock : ℚ) / ((p * tq : Int) : ℚ),
    ((SYNC_SEG + ps + phaseSeg1Of tq ps : Int) : ℚ) / (tq : ℚ) * 100, ?_, ?_, ?_, ?_, ?_, ?_, ?_,
    ?_, ?_, ?_, ?_, ?_, ?_⟩
  · show some c.phaseSeg1 = _
    rw [hc1]
  · show some c.phaseSeg2 = _
    rw [hc2]
  · show tq = 1 + c.propSeg + _ + _
    rw [hcps]
    omega
  · show tq = ⌊(cap.clock : ℚ) / (c.prescaler : ℚ) / desiredBaud + 1 / 2⌋
    rw [hcp]
    exact (Option.some.inj hround).symm
  · exact f1
  · show _ = (cap.clock : ℚ) / ((c.prescaler : ℚ) * (tq : ℚ))
    rw [hcp]
    push_cast
    rfl
  · exact f2
  · show phaseSeg1Of tq ps = ⌊(((tq - 1 - c.propSeg : Int) : ℚ)) / 2⌋
    rw [hcps, phaseSeg1Of_eq]
    have := Rat.floor_intCast_div_natCast (tq - 1 - ps) 2
    rw [show tq - (1 + ps) = tq - 1 - ps by omega]
    simpa using this.symm
  · exact f3
  · show _ = 100 * (1 + (c.propSeg : ℚ) + (phaseSeg1Of tq ps : ℚ)) / (tq : ℚ)
    rw [hcps]
    unfold SYNC_SEG
    push_cast
    ring
  · exact f4
  · show c.maxSJW = _
    rw [hcs]
    rfl
  · show c.oscillatorTolerance = _
    rw [f5]
    show _ = fin (Min.min _ ((c.maxSJW : ℚ) / _))
    rw [hcs]

set_option maxRecDepth 100000 in
/-- C11 at `smallCapability`. -/
theorem returned_record_consistent_witness :
    WellFormed smallCapability 1 ∧
    (find_best_can_timing_solution smallCapability 1 90).solutionFound = true ∧
    ∃ (pseg1 pseg2 tq : Int) (baudRate samplePoint : ℚ),
      (find_best_can_timing_solution smallCapability 1 90).pseg1 = some pseg1 ∧
      (find_best_can_timing_solution smallCapability 1 90).pseg2 = some pseg2 ∧
      tq = 1 + (find_best_can_timing_solution smallCapability 1 90).propSeg + pseg1 + pseg2 ∧
      tq = ⌊(smallCapability.clock : ℚ) /
          ((find_best_can_timing_solution smallCapability 1 90).prescaler : ℚ) / 1 + 1 / 2⌋ ∧
      (find_best_can_timing_solution smallCapability 1 90).baudRate = fin baudRate ∧
      baudRate = (smallCapability.clock : ℚ) /
        (((find_best_can_timing_solution smallCapability 1 90).prescaler : ℚ) * (tq : ℚ)) ∧
      (find_best_can_timing_solution smallCapability 1 90).baudError = fin |baudRate - 1| ∧
      pseg1 = ⌊(((tq - 1 -
        (find_best_can_timing_solution smallCapability 1 90).propSeg : Int) : ℚ)) / 2⌋ ∧
      (find_best_can_timing_solution smallCapability 1 90).samplePoint = fin samplePoint ∧
      samplePoint = 100 *
        (1 + ((find_best_can_timing_solution smallCapability 1 90).propSeg : ℚ) +
          (pseg1 : ℚ)) / (tq : ℚ) ∧
      (find_best_can_timing_solution smallCapability 1 90).samplePointError =
        fin |90 - samplePoint| ∧
      (find_best_can_timing_solution smallCapability 1 90).maxSJW =
        Min.min (Min.min pseg1 pseg2) smallCapability.maxSJW ∧
      (find_best_can_timing_solution smallCapability 1 90).oscillatorTolerance =
        fin (Min.min
          (((Min.min pseg1 pseg2 : Int) : ℚ) / ((2 * ((13 * tq) - pseg2) : Int) : ℚ))
          (((find_best_can_timing_solution smallCapability 1 90).maxSJW : ℚ) /
            ((20 * tq : Int) : ℚ))) :=
  ⟨by decide!, by decide!,
    returned_record_consistent smallCapability 1 90 (by decide!) (by decide!)⟩

/-- The example capability with a clock of 849 Hz and the single prescaler 1:
at `desiredBaud = 100` line 33 rounds 8.49 to 8 time quanta. -/
def roundingCapability : DeviceCapability :=
  { exampleCapability with clock := 849, maxPS := 1 }

/-- A capability with prescalers 1 and 2 and a fixed propagation segment of 1:
at `desiredBaud = 1` prescaler 1 gives 17 time quanta, inside the window, but
the even split then needs `phaseSeg2 = 8 > maxTSeg2`; prescaler 2 gives 9 time
quanta, split `1 + 1 + 3 + 4`. -/
def tightCapability : DeviceCapability :=
  { clock := 17, minPS := 1, maxPS := 2, minTQ := 4, maxTQ := 385, minPropSeg := 1,
    maxPropSeg := 1, minTSeg1 := 2, maxTSeg1 := 12, minTSeg2 := 1, maxTSeg2 := 4,
    maxSJW := 4 }

/-- C12, as amended.  On well-formed input with a found solution, no candidate
the loops enumerate and do not reject gives a bit rate closer to the target
than the returned one: for every prescaler `p` in `[minPS, maxPS]` whose
`t = round(clock / p / desiredBaud)` lies in the TQ window and at which some
`propSeg` of the inner loop passes the three checks,
`|clock / (p * t) - desiredBaud|` is at least the returned `baudError`. -/
theorem baud_optimal_among_candidates (cap : DeviceCapability)
    (desiredBaud desiredSamplePoint : ℚ) (wf : WellFormed cap desiredBaud)
    (_hfound :
      (find_best_can_timing_solution cap desiredBaud desiredSamplePoint).solutionFound = true)
    (p t propSeg : Int) (c : Candidate)
    (he : Enumerated cap desiredBaud p t propSeg)
    (hc : candidate cap desiredBaud desiredSamplePoint p t propSeg = some c) :
    ∃ returnedBaudError : ℚ,
      (find_best_can_timing_solution cap desiredBaud desiredSamplePoint).baudError =
        fin returnedBaudError ∧
      returnedBaudError ≤ |(cap.clock : ℚ) / ((p : ℚ) * (t : ℚ)) - desiredBaud| := by
  have hmem : c ∈ allCandidates cap desiredBaud desiredSamplePoint :=
    (mem_allCandidates _ _ _ _).2 ⟨_, _, _, he, hc⟩
  obtain ⟨c0, hc0, hrec, hle, -⟩ := find_best_of_mem desiredSamplePoint wf hmem
  obtain ⟨hb0, -, -, -⟩ := ranked_of_wellFormed wf hc0
  obtain ⟨-, hPS, -, hProp, hT1, hT2, -, -, -⟩ := wf
  obtain ⟨-, hbe, -, -, -⟩ := candidate_fields hPS hProp hT1 hT2 he hc
  have hk := ((key_le_iff c0 c).1 hle).1
  rw [hbe] at hk
  rw [hrec]
  refine ⟨c0.baudError.toRat, hb0, ?_⟩
  have hcast : ((p * t : Int) : ℚ) = (p : ℚ) * (t : ℚ) := by push_cast; rfl
  rw [← hcast]
  exact hk

set_option maxRecDepth 100000 in
/-- C12 as amended, at `smallCapability` and the pair `(1, 3)`. -/
theorem baud_optimal_among_candidates_witness :
    WellFormed smallCapability 1 ∧
    (find_best_can_timing_solution smallCapability 1 90).solutionFound = true ∧
    Enumerated smallCapability 1 1 10 3 ∧
    candidate smallCapability 1 90 1 10 3 = some smallCandidate ∧
    ∃ returnedBaudError : ℚ,
      (find_best_can_timing_solution smallCapability 1 90).baudError = fin returnedBaudError ∧
      returnedBaudError ≤ |(smallCapability.clock : ℚ) / (((1 : Int) : ℚ) * ((10 : Int) : ℚ)) - 1| :=
  ⟨by decide!, by decide!, by decide!, by decide!,
    baud_optimal_among_candidates smallCapability 1 90 (by decide!) (by decide!) 1 10 3
      smallCandidate (by decide!) (by decide!)⟩

set_option maxRecDepth 100000 in
/-- C12 fails as stated, in two ways.  (a) On `roundingCapability` with
`desiredBaud = 100` the only prescaler is 1 and line 33 rounds 8.49 to
`timeQuanta = 8`, so the returned baud error is `849 / 8 - 100 = 49 / 8`; the
pair `(1, 9)` has `9` inside the TQ window and the smaller error
`100 - 849 / 9 = 17 / 3`.  (b) On `tightCapability` with `desiredBaud = 1`,
prescaler 1 has `round(17 / 1 / 1) = 17` inside the TQ window and error 0, but
its only `propSeg` fails the TSeg2 range check; the returned solution is at
prescaler 2 with error `1 / 18`. -/
theorem rounded_timeQuanta_not_optimal :
    (WellFormed roundingCapability 100 ∧
      (find_best_can_timing_solution roundingCapability 100 (175 / 2)).solutionFound = true ∧
      (find_best_can_timing_solution roundingCapability 100 (175 / 2)).baudError =
        fin (49 / 8) ∧
      timeQuantaOf roundingCapability 100 1 = some 8 ∧
      roundingCapability.minPS ≤ 1 ∧ 1 ≤ roundingCapability.maxPS ∧
      max (1 + roundingCapability.minTSeg1 + roundingCapability.minTSeg2)
        roundingCapability.minTQ ≤ 9 ∧
      9 ≤ min (1 + roundingCapability.maxTSeg1 + roundingCapability.maxTSeg2)
        roundingCapability.maxTQ ∧
      |(roundingCapability.clock : ℚ) / (((1 : Int) : ℚ) * ((9 : Int) : ℚ)) - 100| = 17 / 3 ∧
      ¬ ((49 : ℚ) / 8 ≤
        |(roundingCapability.clock : ℚ) / (((1 : Int) : ℚ) * ((9 : Int) : ℚ)) - 100|)) ∧
    (WellFormed tightCapability 1 ∧
      (find_best_can_timing_solution tightCapability 1 (175 / 2)).solutionFound = true ∧
      (find_best_can_timing_solution tightCapability 1 (175 / 2)).prescaler = 2 ∧
      (find_best_can_timing_solution tightCapability 1 (175 / 2)).baudError = fin (1 / 18) ∧
      tightCapability.minPS ≤ 1 ∧ 1 ≤ tightCapability.maxPS ∧
      timeQuantaOf tightCapability 1 1 = some 17 ∧
      windowMinTQ tightCapability ≤ 17 ∧ 17 ≤ windowMaxTQ tightCapability ∧
      candidatesAt tightCapability 1 (175 / 2) 1 = [] ∧
      ¬ ((1 : ℚ) / 18 ≤
        |(tightCapability.clock : ℚ) / (((1 : Int) : ℚ) * ((17 : Int) : ℚ)) - 1|)) := by
  decide!

/-- C13. Non-negativity: for every input, well-formed or not, solution found
or not, the `oscillatorTolerance` of the returned record is `>= 0` (and
finite). -/
theorem oscillatorTolerance_nonneg (cap : DeviceCapability)
    (desiredBaud desiredSamplePoint : ℚ) :
    JSNum.le (fin 0)
      (find_best_can_timing_solution cap desiredBaud desiredSamplePoint).oscillatorTolerance =
        true ∧
    ∃ x : ℚ,
      (find_best_can_timing_solution cap desiredBaud desiredSamplePoint).oscillatorTolerance =
        fin x ∧ 0 ≤ x := by
  have hmain : ∃ x : ℚ,
      (find_best_can_timing_solution cap desiredBaud desiredSamplePoint).oscillatorTolerance =
        fin x ∧ 0 ≤ x := by
    rcases find_best_cases cap desiredBaud desiredSamplePoint with h0 | ⟨c, hc, hrec⟩
    · rw [h0]
      exact ⟨0, rfl, le_refl _⟩
    · obtain ⟨rb, hrb, -, -⟩ :=
        foldl_update_baudError (allCandidates cap desiredBaud desiredSamplePoint)
          (fun c hc => baudError_ne_ninf_of_mem hc)
      rw [← find_best_eq_foldl, hrec] at hrb
      obtain ⟨p, tq, ps, -, hcand⟩ := (mem_allCandidates _ _ _ _).1 hc
      obtain ⟨⟨-, -, -, -, hosc⟩, hceq⟩ := (candidate_eq_some _ _ _ _ _ _ _).1 hcand
      have hbe : baudErrorOf cap desiredBaud p tq = fin rb := by
        rw [hceq] at hrb
        exact hrb
      have hne := mul_ne_zero_of_baudError_fin hbe
      have htq : tq ≠ 0 := fun h0 => hne (by rw [h0, Int.mul_zero])
      obtain ⟨x, hx, hx0, -⟩ := oscillatorTolerance_check cap tq ps htq hosc
      rw [hrec, hceq]
      exact ⟨x, hx, hx0⟩
  obtain ⟨x, hx, hx0⟩ := hmain
  refine ⟨?_, x, hx, hx0⟩
  rw [hx]
  simpa [JSNum.le] using hx0

/-- The replacement rule as the contract words it, over exact rationals: the
candidate replaces the recorded best when it is strictly better in the
lexicographic order (baud error, then sample point error, then larger
oscillator tolerance), or ties on all three at a different prescaler. -/
def lexicographicReplaces (rBaudErr rSpErr rTol : ℚ) (rPrescaler : Int)
    (baudErr spErr tol : ℚ) (prescaler : Int) : Prop :=
  baudErr < rBaudErr ∨
  (baudErr = rBaudErr ∧ spErr < rSpErr) ∨
  (baudErr = rBaudErr ∧ spErr = rSpErr ∧ tol > rTol) ∨
  (baudErr = rBaudErr ∧ spErr = rSpErr ∧ tol = rTol ∧ prescaler ≠ rPrescaler)

/-- C14. The four-clause condition of lines 75-78 is exactly a lexicographic
comparison with a prescaler tie-break: over exact rationals, for every recorded
best and every candidate, the condition (clause 1 `<`; clause 2 `<=` and `<`;
clause 3 `<=`, `<=` and `>`; clause 4 `<=`, `<=`, `>=` and a different
prescaler) holds if and only if the candidate is strictly better
lexicographically or ties on all three criteria at a different prescaler. -/
theorem replaces_iff_lexicographic (r : Result) (c : Candidate)
    (rBaudErr rSpErr rTol baudErr spErr tol : ℚ) :
    (replaces
        { r with baudError := fin rBaudErr, samplePointError := fin rSpErr,
                 oscillatorTolerance := fin rTol }
        { c with baudError := fin baudErr, samplePointError := fin spErr,
                 oscillatorTolerance := fin tol } = true ↔
      (baudErr < rBaudErr ∨
        (baudErr ≤ rBaudErr ∧ spErr < rSpErr) ∨
        (baudErr ≤ rBaudErr ∧ spErr ≤ rSpErr ∧ tol > rTol) ∨
        (baudErr ≤ rBaudErr ∧ spErr ≤ rSpErr ∧ tol ≥ rTol ∧ r.prescaler ≠ c.prescaler))) ∧
    (replaces
        { r with baudError := fin rBaudErr, samplePointError := fin rSpErr,
                 oscillatorTolerance := fin rTol }
        { c with baudError := fin baudErr, samplePointError := fin spErr,
                 oscillatorTolerance := fin tol } = true ↔
      lexicographicReplaces rBaudErr rSpErr rTol r.prescaler baudErr spErr tol c.prescaler) := by
  have h1 : replaces
        { r with baudError := fin rBaudErr, samplePointError := fin rSpErr,
                 oscillatorTolerance := fin rTol }
        { c with baudError := fin baudErr, samplePointError := fin spErr,
                 oscillatorTolerance := fin tol } = true ↔
      (baudErr < rBaudErr ∨
        (baudErr ≤ rBaudErr ∧ spErr < rSpErr) ∨
        (baudErr ≤ rBaudErr ∧ spErr ≤ rSpErr ∧ rTol < tol) ∨
        (baudErr ≤ rBaudErr ∧ spErr ≤ rSpErr ∧ rTol ≤ tol ∧ r.prescaler ≠ c.prescaler)) := by
    unfold replaces
    simp only [JSNum.lt, JSNum.le, Bool.or_eq_true, Bool.and_eq_true, decide_eq_true_eq,
      bne_iff_ne, ne_eq]
    tauto
  refine ⟨h1, ?_⟩
  rw [h1, clauses_iff]
  unfold lexicographicReplaces
  constructor
  · rintro ((h | h | h) | ⟨⟨hb, hs, ho⟩, hp⟩)
    · exact Or.inl h
    · exact Or.inr (Or.inl h)
    · exact Or.inr (Or.inr (Or.inl h))
    · exact Or.inr (Or.inr (Or.inr ⟨hb, hs, ho, fun e => hp e.symm⟩))
  · rintro (h | h | h | ⟨hb, hs, ho, hp⟩)
    · exact Or.inl (Or.inl h)
    · exact Or.inl (Or.inr (Or.inl h))
    · exact Or.inl (Or.inr (Or.inr h))
    · exact Or.inr ⟨⟨hb, hs, ho⟩, fun e => hp e.symm⟩

theorem JSNum.lt_irrefl (a : JSNum) : JSNum.lt a a = false := by
  cases a <;> simp [JSNum.lt]

theorem JSNum.not_le_of_lt {a b : JSNum} (h : JSNum.lt a b = true) : JSNum.le b a = false := by
  cases a <;> cases b <;> simp_all [JSNum.lt, JSNum.le]

theorem JSNum.not_lt_of_lt {a b : JSNum} (h : JSNum.lt a b = true) : JSNum.lt b a = false := by
  cases a <;> cases b <;> simp_all [JSNum.lt]
  exact h.le

/-- A candidate that ties on baud error and sample point error and has a
strictly smaller oscillator tolerance fails all four clauses, whatever the
prescalers. -/
theorem replaces_false_of_tolerance_lt {r : Result} {c : Candidate}
    (hb : c.baudError = r.baudError) (hs : c.samplePointError = r.samplePointError)
    (ho : JSNum.lt c.oscillatorTolerance r.oscillatorTolerance = true) :
    replaces r c = false := by
  unfold replaces
  rw [hb, hs, JSNum.lt_irrefl, JSNum.lt_irrefl, JSNum.not_le_of_lt ho, JSNum.not_lt_of_lt ho]
  simp

/-- A recorded best with oscillator tolerance `3 / 254` at prescaler 1. -/
def recordedBest : Result := record smallCandidate

/-- A candidate tied with `recordedBest` on baud error and sample point error,
with the smaller oscillator tolerance `1 / 254`, at prescaler 2. -/
def worseToleranceCandidate : Candidate :=
  { smallCandidate with oscillatorTolerance := fin (1 / 254), prescaler := 2 }

/-- C15 fails: there is no recorded best and candidate, tied on `baudError` and
`samplePointError`, with the recorded best of strictly greater
`oscillatorTolerance` and the candidate at a different prescaler, for which the
replacement condition holds.  Clause 4 requires
`oscillatorTolerance >= result.oscillatorTolerance`. -/
theorem no_overwrite_of_better_tolerance :
    ¬ ∃ (r : Result) (c : Candidate),
      c.baudError = r.baudError ∧ c.samplePointError = r.samplePointError ∧
      JSNum.lt c.oscillatorTolerance r.oscillatorTolerance = true ∧
      r.prescaler ≠ c.prescaler ∧ replaces r c = true := by
  rintro ⟨r, c, hb, hs, ho, -, hrep⟩
  rw [replaces_false_of_tolerance_lt hb hs ho] at hrep
  exact absurd hrep (by decide)

/-- C15, as amended.  Clause 4 has no sharp edge of that kind: for every
recorded best and every candidate tied on `baudError` and `samplePointError`
where the recorded best has strictly greater `oscillatorTolerance`, the
replacement condition is false whatever the two prescalers, and the recorded
best is kept. -/
theorem better_tolerance_is_kept (r : Result) (c : Candidate)
    (hb : c.baudError = r.baudError) (hs : c.samplePointError = r.samplePointError)
    (ho : JSNum.lt c.oscillatorTolerance r.oscillatorTolerance = true) :
    replaces r c = false ∧ update r c = r := by
  have h := replaces_false_of_tolerance_lt hb hs ho
  exact ⟨h, update_of_not_replaces (by rw [h]; decide)⟩

/-- C15 as amended, for `recordedBest` and `worseToleranceCandidate`. -/
theorem better_tolerance_is_kept_witness :
    worseToleranceCandidate.baudError = recordedBest.baudError ∧
    worseToleranceCandidate.samplePointError = recordedBest.samplePointError ∧
    JSNum.lt worseToleranceCandidate.oscillatorTolerance recordedBest.oscillatorTolerance =
      true ∧
    recordedBest.prescaler ≠ worseToleranceCandidate.prescaler ∧
    replaces recordedBest worseToleranceCandidate = false ∧
    update recordedBest worseToleranceCandidate = recordedBest :=
  ⟨by decide!, by decide!, by decide!, by decide!,
    better_tolerance_is_kept recordedBest worseToleranceCandidate (by decide!) (by decide!)
      (by decide!)⟩

/-- Raising `maxTQ` keeps every enumerated pair enumerated; the candidate
computed at the pair does not read `maxTQ`. -/
theorem enumerated_of_maxTQ_le {C : DeviceCapability} {m : Int} {desiredBaud : ℚ}
    {prescaler timeQuanta propSeg : Int} (hm : C.maxTQ ≤ m)
    (he : Enumerated C desiredBaud prescaler timeQuanta propSeg) :
    Enumerated { C with maxTQ := m } desiredBaud prescaler timeQuanta propSeg := by
  obtain ⟨e1, e2, e3, e4, e5, e6, e7⟩ := he
  refine ⟨e1, e2, e3, e4, ?_, e6, e7⟩
  unfold windowMaxTQ at e5 ⊢
  dsimp only
  omega

theorem candidate_maxTQ (C : DeviceCapability) (m : Int) (desiredBaud desiredSamplePoint : ℚ)
    (prescaler timeQuanta propSeg : Int) :
    candidate { C with maxTQ := m } desiredBaud desiredSamplePoint prescaler timeQuanta propSeg =
      candidate C desiredBaud desiredSamplePoint prescaler timeQuanta propSeg :=
  rfl

theorem mem_allCandidates_of_maxTQ_le {C : DeviceCapability} {m : Int}
    {desiredBaud desiredSamplePoint : ℚ} {c : Candidate} (hm : C.maxTQ ≤ m)
    (hc : c ∈ allCandidates C desiredBaud desiredSamplePoint) :
    c ∈ allCandidates { C with maxTQ := m } desiredBaud desiredSamplePoint := by
  obtain ⟨p, tq, ps, he, hcand⟩ := (mem_allCandidates _ _ _ _).1 hc
  exact (mem_allCandidates _ _ _ _).2
    ⟨p, tq, ps, enumerated_of_maxTQ_le hm he, (candidate_maxTQ C m _ _ p tq ps).trans hcand⟩

/-- C16. Monotonicity in `maxTQ`: for a capability `C` and the capability `C'`
equal to `C` except for a `maxTQ` at least as large, and every target, every
candidate enumerated and not rejected under `C` is enumerated and not rejected
under `C'` with identical computed fields; if a solution is found under `C`
then one is found under `C'`; and the `baudError` returned under `C'` is at
most the one returned under `C`. -/
theorem maxTQ_monotone (C : DeviceCapability) (m : Int) (desiredBaud desiredSamplePoint : ℚ)
    (hm : C.maxTQ ≤ m) :
    (∀ (prescaler timeQuanta propSeg : Int) (c : Candidate),
      Enumerated C desiredBaud prescaler timeQuanta propSeg →
      candidate C desiredBaud desiredSamplePoint prescaler timeQuanta propSeg = some c →
      Enumerated { C with maxTQ := m } desiredBaud prescaler timeQuanta propSeg ∧
      candidate { C with maxTQ := m } desiredBaud desiredSamplePoint prescaler timeQuanta
        propSeg = some c) ∧
    ((find_best_can_timing_solution C desiredBaud desiredSamplePoint).solutionFound = true →
      (find_best_can_timing_solution { C with maxTQ := m } desiredBaud
        desiredSamplePoint).solutionFound = true) ∧
    JSNum.le
      (find_best_can_timing_solution { C with maxTQ := m } desiredBaud
        desiredSamplePoint).baudError
      (find_best_can_timing_solution C desiredBaud desiredSamplePoint).baudError = true := by
  refine ⟨fun p tq ps c he hc =>
    ⟨enumerated_of_maxTQ_le hm he, (candidate_maxTQ C m _ _ p tq ps).trans hc⟩, ?_, ?_⟩
  · intro hfound
    rw [find_best_eq_foldl, foldl_update_found] at hfound ⊢
    obtain ⟨c, hc, hrep⟩ := hfound
    exact ⟨c, mem_allCandidates_of_maxTQ_le hm hc, hrep⟩
  · obtain ⟨rb', hrb', hmax', hall'⟩ :=
      foldl_update_baudError
        (allCandidates { C with maxTQ := m } desiredBaud desiredSamplePoint)
        (fun c hc => baudError_ne_ninf_of_mem hc)
    rw [← find_best_eq_foldl] at hrb'
    rw [hrb']
    rcases find_best_cases C desiredBaud desiredSamplePoint with h0 | ⟨c, hc, hrec⟩
    · rw [h0]
      show JSNum.le (fin rb') (fin MAX_VALUE) = true
      simpa [JSNum.le] using hmax'
    · obtain ⟨rb, hrb, -, -⟩ :=
        foldl_update_baudError (allCandidates C desiredBaud desiredSamplePoint)
          (fun c hc => baudError_ne_ninf_of_mem hc)
      rw [← find_best_eq_foldl, hrec] at hrb
      rw [hrec]
      show JSNum.le (fin rb') c.baudError = true
      have hcb : c.baudError = fin rb := hrb
      rw [hcb]
      have := hall' c (mem_allCandidates_of_maxTQ_le hm hc) rb hcb
      simpa [JSNum.le] using this

set_option maxRecDepth 100000 in
/-- C16 for `smallCapability` with `maxTQ` raised from 100 to 200. -/
theorem maxTQ_monotone_witness :
    smallCapability.maxTQ ≤ 200 ∧
    (find_best_can_timing_solution smallCapability 1 90).solutionFound = true ∧
    (find_best_can_timing_solution { smallCapability with maxTQ := 200 } 1 90).solutionFound =
      true ∧
    JSNum.le
      (find_best_can_timing_solution { smallCapability with maxTQ := 200 } 1 90).baudError
      (find_best_can_timing_solution smallCapability 1 90).baudError = true :=
  ⟨by decide, by decide!,
    (maxTQ_monotone smallCapability 200 1 90 (by decide)).2.1 (by decide!),
    (maxTQ_monotone smallCapability 200 1 90 (by decide)).2.2⟩

/-- C17. Even split, extra unit to phase segment 2: for every integer `r`
(positive, zero or negative) the split of lines 45-52 gives
`phaseSeg1 = floor(r / 2)` and `phaseSeg2 = r - floor(r / 2) = ceil(r / 2)`, so
`phaseSeg1 <= phaseSeg2 <= phaseSeg1 + 1`, with equality exactly when `r` is
even; and in every returned solution `pseg2 - pseg1` is 0 or 1. -/
theorem even_split (r : Int) (cap : DeviceCapability) (desiredBaud desiredSamplePoint : ℚ) :
    (splitPhase r).1 = ⌊(r : ℚ) / 2⌋ ∧
    (splitPhase r).2 = r - ⌊(r : ℚ) / 2⌋ ∧
    (splitPhase r).2 = ⌈(r : ℚ) / 2⌉ ∧
    (splitPhase r).1 ≤ (splitPhase r).2 ∧
    (splitPhase r).2 ≤ (splitPhase r).1 + 1 ∧
    ((splitPhase r).2 = (splitPhase r).1 ↔ 2 ∣ r) ∧
    ((find_best_can_timing_solution cap desiredBaud desiredSamplePoint).solutionFound = true →
      ∃ pseg1 pseg2,
        (find_best_can_timing_solution cap desiredBaud desiredSamplePoint).pseg1 = some pseg1 ∧
        (find_best_can_timing_solution cap desiredBaud desiredSamplePoint).pseg2 = some pseg2 ∧
        (pseg2 - pseg1 = 0 ∨ pseg2 - pseg1 = 1)) := by
  have hfloor : ⌊(r : ℚ) / 2⌋ = r / 2 := by
    have := Rat.floor_intCast_div_natCast r 2
    simpa using this
  have hceil : ⌈(r : ℚ) / 2⌉ = r - r / 2 := by
    rw [Int.ceil_eq_iff]
    constructor
    · have e : ((r - r / 2 : Int) : ℚ) - 1 = ((r - r / 2 - 1 : Int) : ℚ) := by
        push_cast
        ring
      rw [e, lt_div_iff₀ (by norm_num : (0 : ℚ) < 2)]
      have : (r - r / 2 - 1) * 2 < r := by omega
      exact_mod_cast this
    · rw [div_le_iff₀ (by norm_num : (0 : ℚ) < 2)]
      have : r ≤ (r - r / 2) * 2 := by omega
      exact_mod_cast this
  rw [splitPhase_eq, hfloor, hceil]
  refine ⟨rfl, rfl, rfl, by dsimp only; omega, by dsimp only; omega, ?_, fun hfound => ?_⟩
  · dsimp only
    constructor
    · intro h
      exact Int.dvd_of_emod_eq_zero (by omega)
    · intro h
      have := Int.emod_eq_zero_of_dvd h
      omega
  · obtain ⟨p, tq, ps, c, -, hc, hrec⟩ :=
      find_best_found_at cap desiredBaud desiredSamplePoint hfound
    obtain ⟨-, rfl⟩ := (candidate_eq_some _ _ _ _ _ _ _).1 hc
    rw [hrec]
    refine ⟨_, _, rfl, rfl, ?_⟩
    show phaseSeg2Of tq ps - phaseSeg1Of tq ps = 0 ∨ phaseSeg2Of tq ps - phaseSeg1Of tq ps = 1
    rw [phaseSeg1Of_eq, phaseSeg2Of_eq]
    omega

set_option maxRecDepth 100000 in
/-- C17 at the negative odd remainder `-5` and at `smallCapability`. -/
theorem even_split_witness :
    (splitPhase (-5)).1 = -3 ∧ (splitPhase (-5)).2 = -2 ∧
    (find_best_can_timing_solution smallCapability 1 90).solutionFound = true ∧
    ∃ pseg1 pseg2,
      (find_best_can_timing_solution smallCapability 1 90).pseg1 = some pseg1 ∧
      (find_best_can_timing_solution smallCapability 1 90).pseg2 = some pseg2 ∧
      (pseg2 - pseg1 = 0 ∨ pseg2 - pseg1 = 1) :=
  ⟨by decide, by decide, by decide!,
    (even_split (-5) smallCapability 1 90).2.2.2.2.2.2 (by decide!)⟩

/-- C18. Total-TQ and propagation-segment containment: whenever a solution is
found, the returned record has
`minTQ <= 1 + propSeg + pseg1 + pseg2 <= maxTQ`,
`minPropSeg <= propSeg <= maxPropSeg` and
`1 + minTSeg1 + minTSeg2 <= 1 + propSeg + pseg1 + pseg2 <= 1 + maxTSeg1 + maxTSeg2`. -/
theorem total_and_propSeg_containment (cap : DeviceCapability)
    (desiredBaud desiredSamplePoint : ℚ)
    (hfound :
      (find_best_can_timing_solution cap desiredBaud desiredSamplePoint).solutionFound = true) :
    ∃ pseg1 pseg2,
      (find_best_can_timing_solution cap desiredBaud desiredSamplePoint).pseg1 = some pseg1 ∧
      (find_best_can_timing_solution cap desiredBaud desiredSamplePoint).pseg2 = some pseg2 ∧
      cap.minTQ ≤
        1 + (find_best_can_timing_solution cap desiredBaud desiredSamplePoint).propSeg +
          pseg1 + pseg2 ∧
      1 + (find_best_can_timing_solution cap desiredBaud desiredSamplePoint).propSeg +
          pseg1 + pseg2 ≤ cap.maxTQ ∧
      cap.minPropSeg ≤ (find_best_can_timing_solution cap desiredBaud desiredSamplePoint).propSeg ∧
      (find_best_can_timing_solution cap desiredBaud desiredSamplePoint).propSeg ≤
        cap.maxPropSeg ∧
      1 + cap.minTSeg1 + cap.minTSeg2 ≤
        1 + (find_best_can_timing_solution cap desiredBaud desiredSamplePoint).propSeg +
          pseg1 + pseg2 ∧
      1 + (find_best_can_timing_solution cap desiredBaud desiredSamplePoint).propSeg +
          pseg1 + pseg2 ≤ 1 + cap.maxTSeg1 + cap.maxTSeg2 := by
  obtain ⟨p, tq, ps, c, he, hc, hrec⟩ := find_best_found_at cap desiredBaud desiredSamplePoint hfound
  obtain ⟨-, rfl⟩ := (candidate_eq_some _ _ _ _ _ _ _).1 hc
  obtain ⟨-, -, -, e4, e5, e6, e7⟩ := he
  have hsum := segments_sum tq ps
  unfold windowMinTQ at e4
  unfold windowMaxTQ at e5
  unfold maxPropSegAt at e7
  unfold SYNC_SEG at hsum e4 e5
  rw [hrec]
  refine ⟨phaseSeg1Of tq ps, phaseSeg2Of tq ps, rfl, rfl, ?_⟩
  show cap.minTQ ≤ 1 + ps + phaseSeg1Of tq ps + phaseSeg2Of tq ps ∧
    1 + ps + phaseSeg1Of tq ps + phaseSeg2Of tq ps ≤ cap.maxTQ ∧
    cap.minPropSeg ≤ ps ∧ ps ≤ cap.maxPropSeg ∧
    1 + cap.minTSeg1 + cap.minTSeg2 ≤ 1 + ps + phaseSeg1Of tq ps + phaseSeg2Of tq ps ∧
    1 + ps + phaseSeg1Of tq ps + phaseSeg2Of tq ps ≤ 1 + cap.maxTSeg1 + cap.maxTSeg2
  omega

set_option maxRecDepth 100000 in
/-- C18 at `smallCapability`. -/
theorem total_and_propSeg_containment_witness :
    (find_best_can_timing_solution smallCapability 1 90).solutionFound = true ∧
    ∃ pseg1 pseg2,
      (find_best_can_timing_solution smallCapability 1 90).pseg1 = some pseg1 ∧
      (find_best_can_timing_solution smallCapability 1 90).pseg2 = some pseg2 ∧
      smallCapability.minTQ ≤
        1 + (find_best_can_timing_solution smallCapability 1 90).propSeg + pseg1 + pseg2 ∧
      1 + (find_best_can_timing_solution smallCapability 1 90).propSeg + pseg1 + pseg2 ≤
        smallCapability.maxTQ ∧
      smallCapability.minPropSeg ≤ (find_best_can_timing_solution smallCapability 1 90).propSeg ∧
      (find_best_can_timing_solution smallCapability 1 90).propSeg ≤
        smallCapability.maxPropSeg ∧
      1 + smallCapability.minTSeg1 + smallCapability.minTSeg2 ≤
        1 + (find_best_can_timing_solution smallCapability 1 90).propSeg + pseg1 + pseg2 ∧
      1 + (find_best_can_timing_solution smallCapability 1 90).propSeg + pseg1 + pseg2 ≤
        1 + smallCapability.maxTSeg1 + smallCapability.maxTSeg2 :=
  ⟨by decide!, total_and_propSeg_containment smallCapability 1 90 (by decide!)⟩

/-- The capability `smallCapability` with `maxSJW = 0`: every candidate then has
oscillator tolerance 0, and with `desiredSamplePoint = 60` the candidates at
`propSeg = 1` and `propSeg = 2` (sample point 60 both) tie on all three
criteria. -/
def zeroSJWCapability : DeviceCapability :=
  { smallCapability with maxSJW := 0 }

/-- The candidate of `zeroSJWCapability` at `prescaler = 1`, `propSeg = 2`, for
`desiredBaud = 1` and `desiredSamplePoint = 60`. -/
def tiedCandidate : Candidate :=
  { baudRate := fin 1, baudError := fin 0, samplePoint := fin 60, samplePointError := fin 0,
    oscillatorTolerance := fin 0, prescaler := 1, propSeg := 2, phaseSeg1 := 3,
    phaseSeg2 := 4, maxSJW := 0 }

/-- C19. Ties inside one prescaler keep the smallest `propSeg`: on
well-formed input with a found solution, for every enumerated, non-rejected
candidate whose `baudError`, `samplePointError` and `oscillatorTolerance` all
equal those of the returned solution, if the candidate is at the returned
prescaler then the returned `propSeg` is at most the candidate's; and the
returned `(prescaler, propSeg)` is lexicographically at most the candidate's
pair. -/
theorem tie_keeps_smallest_propSeg (cap : DeviceCapability)
    (desiredBaud desiredSamplePoint : ℚ) (wf : WellFormed cap desiredBaud)
    (_hfound :
      (find_best_can_timing_solution cap desiredBaud desiredSamplePoint).solutionFound = true)
    (prescaler timeQuanta propSeg : Int) (c : Candidate)
    (he : Enumerated cap desiredBaud prescaler timeQuanta propSeg)
    (hc : candidate cap desiredBaud desiredSamplePoint prescaler timeQuanta propSeg = some c)
    (hb : c.baudError =
      (find_best_can_timing_solution cap desiredBaud desiredSamplePoint).baudError)
    (hs : c.samplePointError =
      (find_best_can_timing_solution cap desiredBaud desiredSamplePoint).samplePointError)
    (ho : c.oscillatorTolerance =
      (find_best_can_timing_solution cap desiredBaud desiredSamplePoint).oscillatorTolerance) :
    (prescaler = (find_best_can_timing_solution cap desiredBaud desiredSamplePoint).prescaler →
      (find_best_can_timing_solution cap desiredBaud desiredSamplePoint).propSeg ≤ propSeg) ∧
    ((find_best_can_timing_solution cap desiredBaud desiredSamplePoint).prescaler < prescaler ∨
      ((find_best_can_timing_solution cap desiredBaud desiredSamplePoint).prescaler = prescaler ∧
        (find_best_can_timing_solution cap desiredBaud desiredSamplePoint).propSeg ≤
          propSeg)) := by
  have hmem : c ∈ allCandidates cap desiredBaud desiredSamplePoint :=
    (mem_allCandidates _ _ _ _).2 ⟨_, _, _, he, hc⟩
  obtain ⟨c0, hc0, hrec, -, htie⟩ := find_best_of_mem desiredSamplePoint wf hmem
  rw [hrec] at hb hs ho ⊢
  have hkey : c0.key = c.key := key_eq_of_fields hb.symm hs.symm ho.symm
  obtain ⟨hcp, hcps⟩ := candidate_prescaler_propSeg hc
  obtain ⟨h1, h2⟩ := htie hkey
  rw [hcp] at h1 h2
  rw [hcps] at h2
  show (prescaler = c0.prescaler → c0.propSeg ≤ propSeg) ∧
    (c0.prescaler < prescaler ∨ (c0.prescaler = prescaler ∧ c0.propSeg ≤ propSeg))
  refine ⟨fun e => h2 e.symm, ?_⟩
  rcases h1.lt_or_eq with h | h
  · exact Or.inl h
  · exact Or.inr ⟨h, h2 h⟩

set_option maxRecDepth 100000 in
/-- C19 at `zeroSJWCapability` with `desiredSamplePoint = 60`: the candidates
at `propSeg = 1` and `propSeg = 2` tie, and `propSeg = 1` is returned. -/
theorem tie_keeps_smallest_propSeg_witness :
    WellFormed zeroSJWCapability 1 ∧
    (find_best_can_timing_solution zeroSJWCapability 1 60).solutionFound = true ∧
    Enumerated zeroSJWCapability 1 1 10 2 ∧
    candidate zeroSJWCapability 1 60 1 10 2 = some tiedCandidate ∧
    tiedCandidate.baudError = (find_best_can_timing_solution zeroSJWCapability 1 60).baudError ∧
    tiedCandidate.samplePointError =
      (find_best_can_timing_solution zeroSJWCapability 1 60).samplePointError ∧
    tiedCandidate.oscillatorTolerance =
      (find_best_can_timing_solution zeroSJWCapability 1 60).oscillatorTolerance ∧
    (find_best_can_timing_solution zeroSJWCapability 1 60).propSeg = 1 ∧
    (1 = (find_best_can_timing_solution zeroSJWCapability 1 60).prescaler →
      (find_best_can_timing_solution zeroSJWCapability 1 60).propSeg ≤ 2) ∧
    ((find_best_can_timing_solution zeroSJWCapability 1 60).prescaler < 1 ∨
      ((find_best_can_timing_solution zeroSJWCapability 1 60).prescaler = 1 ∧
        (find_best_can_timing_solution zeroSJWCapability 1 60).propSeg ≤ 2)) :=
  ⟨by decide!, by decide!, by decide!, by decide!, by decide!, by decide!, by decide!,
    by decide!,
    tie_keeps_smallest_propSeg zeroSJWCapability 1 60 (by decide!) (by decide!) 1 10 2
      tiedCandidate (by decide!) (by decide!) (by decide!) (by decide!) (by decide!)⟩

/-- A capability whose propagation segment starts at 3 with no minimum on the
phase segments: at `desiredBaud = 1` the bit has 4 time quanta and the inner
loop runs `propSeg` over `3 .. 6`, with remainders `0, -1, -2, -3`. -/
def lateCapability : DeviceCapability :=
  { clock := 4, minPS := 1, maxPS := 1, minTQ := 0, maxTQ := 100, minPropSeg := 3,
    maxPropSeg := 100, minTSeg1 := 0, maxTSeg1 := 100, minTSeg2 := 0, maxTSeg2 := 100,
    maxSJW := 10 }

/-- C20. Returned segments are non-negative: with `minTSeg1 >= 0` and
`minTSeg2 >= 0` (so that the TQ window starts at 1 or more), a found solution
has `pseg1 >= 0`, `pseg2 >= 0` and `0 <= maxSJW <= min(pseg1, pseg2)`, and,
when moreover `minPropSeg >= 0`, `0 < samplePoint <= 100`; candidates with a
negative remainder are rejected by the test of line 67. -/
theorem returned_segments_nonneg (cap : DeviceCapability)
    (desiredBaud desiredSamplePoint : ℚ) (h1 : 0 ≤ cap.minTSeg1) (h2 : 0 ≤ cap.minTSeg2)
    (hfound :
      (find_best_can_timing_solution cap desiredBaud desiredSamplePoint).solutionFound = true) :
    ∃ pseg1 pseg2,
      (find_best_can_timing_solution cap desiredBaud desiredSamplePoint).pseg1 = some pseg1 ∧
      (find_best_can_timing_solution cap desiredBaud desiredSamplePoint).pseg2 = some pseg2 ∧
      0 ≤ pseg1 ∧ 0 ≤ pseg2 ∧
      0 ≤ (find_best_can_timing_solution cap desiredBaud desiredSamplePoint).maxSJW ∧
      (find_best_can_timing_solution cap desiredBaud desiredSamplePoint).maxSJW ≤
        Min.min pseg1 pseg2 ∧
      (0 ≤ cap.minPropSeg →
        ∃ samplePoint : ℚ,
          (find_best_can_timing_solution cap desiredBaud desiredSamplePoint).samplePoint =
            fin samplePoint ∧
          0 < samplePoint ∧ samplePoint ≤ 100) := by
  obtain ⟨p, tq, ps, c, he, hc, hrec⟩ := find_best_found_at cap desiredBaud desiredSamplePoint hfound
  obtain ⟨⟨-, -, k3, -, hosc⟩, rfl⟩ := (candidate_eq_some _ _ _ _ _ _ _).1 hc
  obtain ⟨-, -, -, e4, -, e6, -⟩ := he
  have htq : 1 ≤ tq := by
    unfold windowMinTQ SYNC_SEG at e4
    omega
  obtain ⟨-, -, -, hpos⟩ := oscillatorTolerance_check cap tq ps (by omega) hosc
  obtain ⟨hp1, hsjw⟩ := hpos htq
  have hsum := segments_sum tq ps
  unfold SYNC_SEG at hsum
  rw [hrec]
  refine ⟨phaseSeg1Of tq ps, phaseSeg2Of tq ps, rfl, rfl, hp1, by omega, hsjw, ?_, ?_⟩
  · show maxSJWOf cap tq ps ≤ _
    unfold maxSJWOf
    exact min_le_left _ _
  · intro hProp
    refine ⟨_, samplePointOf_eq tq ps (by omega), ?_, ?_⟩
    · have hnum : (0 : ℚ) < ((SYNC_SEG + ps + phaseSeg1Of tq ps : Int) : ℚ) :=
        Int.cast_pos.2 (by unfold SYNC_SEG; omega)
      have hden : (0 : ℚ) < (tq : ℚ) := Int.cast_pos.2 (by omega)
      exact mul_pos (div_pos hnum hden) (by norm_num)
    · have hden : (0 : ℚ) < (tq : ℚ) := Int.cast_pos.2 (by omega)
      have hle : ((SYNC_SEG + ps + phaseSeg1Of tq ps : Int) : ℚ) ≤ (tq : ℚ) :=
        Int.cast_le.2 (by unfold SYNC_SEG; omega)
      have := (div_le_one hden).2 hle
      linarith

set_option maxRecDepth 100000 in
/-- C20 at `lateCapability`, where the inner loop reaches `propSeg = 4` with a
remainder of `-1`: that pair passes both range checks and is rejected by the
test of line 67. -/
theorem returned_segments_nonneg_witness :
    0 ≤ lateCapability.minTSeg1 ∧ 0 ≤ lateCapability.minTSeg2 ∧
    (find_best_can_timing_solution lateCapability 1 90).solutionFound = true ∧
    (Enumerated lateCapability 1 1 4 4 ∧ phaseSeg1Of 4 4 = -1 ∧ phaseSeg2Of 4 4 = 0 ∧
      lateCapability.minTSeg1 ≤ 4 + phaseSeg1Of 4 4 ∧
      4 + phaseSeg1Of 4 4 ≤ lateCapability.maxTSeg1 ∧
      lateCapability.minTSeg2 ≤ phaseSeg2Of 4 4 ∧ phaseSeg2Of 4 4 ≤ lateCapability.maxTSeg2 ∧
      candidate lateCapability 1 90 1 4 4 = none) ∧
    ∃ pseg1 pseg2,
      (find_best_can_timing_solution lateCapability 1 90).pseg1 = some pseg1 ∧
      (find_best_can_timing_solution lateCapability 1 90).pseg2 = some pseg2 ∧
      0 ≤ pseg1 ∧ 0 ≤ pseg2 ∧
      0 ≤ (find_best_can_timing_solution lateCapability 1 90).maxSJW ∧
      (find_best_can_timing_solution lateCapability 1 90).maxSJW ≤ Min.min pseg1 pseg2 ∧
      (0 ≤ lateCapability.minPropSeg →
        ∃ samplePoint : ℚ,
          (find_best_can_timing_solution lateCapability 1 90).samplePoint = fin samplePoint ∧
          0 < samplePoint ∧ samplePoint ≤ 100) :=
  ⟨by decide, by decide, by decide!, by decide!,
    returned_segments_nonneg lateCapability 1 90 (by decide) (by decide) (by decide!)⟩

end CanBitTiming
